import Mathlib

/-!
# Verification of the pegel_alarm threshold-crossing alert engine

Shallow embedding of the canonical hysteresis variant (`Pegelabfrage.py`) of
the pegel_alarm repository.  Measurement values, thresholds and points in time
are modelled as rationals (`ℚ`); the Python floats appearing in the program are
decimal literals that rationals represent exactly, and all operations used on
them (comparison, subtraction, division by 1000) are exact.  Points in time are
epoch seconds, so `datetime` subtraction followed by `total_seconds()` becomes
rational subtraction.

The persisted alert state (`state` table of the SQLite database) is a mapping
from string keys to string values.  The engine stores exactly these value
shapes: the flag strings `"1"` / `"0"`, the empty string, decimal level
renderings, and ISO-8601 renderings of timestamps produced by
`datetime.isoformat` and read back with `_to_dt`.  Since
`isoformat`/`fromisoformat` are an injective serialisation with a parsing
inverse provided by the Python standard library (outside this repository), a
stored string is modelled as a tagged value `DBVal`: either a raw string
(`DBVal.s`), or an ISO timestamp string denoting the instant `t`
(`DBVal.ts t`).  An ISO timestamp string is nonempty and is not one of the
truthy flag words, and a raw string in the model stands for a string that is
not a valid ISO timestamp, so it parses to no instant.
-/

namespace PegelAlarm

/-- A value stored in the `state` table (a TEXT column).  `.s v` is a plain
string that is not an ISO-8601 timestamp; `.ts t` is the ISO-8601 rendering
(`datetime.isoformat`) of the instant `t` (epoch seconds). -/
inductive DBVal where
  | s (v : String)
  | ts (t : ℚ)
deriving DecidableEq

/-- The `state` table: key/value with `key TEXT PRIMARY KEY`. -/
def StateStore := String → Option DBVal

/-- `db_get_state`: `SELECT value FROM state WHERE key = ?`. -/
def db_get_state (store : StateStore) (key : String) : Option DBVal :=
  store key

/-- `db_set_state`: `INSERT ... ON CONFLICT(key) DO UPDATE SET value = ...`. -/
def db_set_state (store : StateStore) (key : String) (value : DBVal) : StateStore :=
  fun k => if k = key then some value else store k

/-- One configured station (`StationConfig`). -/
structure Station where
  name : String
  station_id_public : String
  station_no : String
  parameter : String
  thresholds_cm : List ℚ
  level_names : List String

/-- The fields of `Settings` that the alert engine reads. -/
structure EngineCfg where
  rearm_below_hours : ℚ
  alert_on_start : Bool
  email_enabled : Bool
  mail_to : String
  mail_from : String
  smtp_host : String
  smtp_user : String
  smtp_password : String

/-- `str.strip()`: drop leading and trailing whitespace.  (Structural
definition over the character list, so that it evaluates inside the kernel;
for the ASCII configuration strings and flag words the engine handles this
agrees with Python's Unicode stripping.) -/
def pyStrip (s : String) : String :=
  String.mk (((s.data.dropWhile Char.isWhitespace).reverse.dropWhile
    Char.isWhitespace).reverse)

/-- `str.lower()` (ASCII case folding, structurally). -/
def pyLower (s : String) : String :=
  String.mk (s.data.map Char.toLower)

/-- `_email_config_ok`: enabled and all of to/from/host/user/password nonempty
after stripping. -/
def email_config_ok (cfg : EngineCfg) : Bool :=
  cfg.email_enabled
    && !(pyStrip cfg.mail_to == "") && !(pyStrip cfg.mail_from == "")
    && !(pyStrip cfg.smtp_host == "") && !(pyStrip cfg.smtp_user == "")
    && !(pyStrip cfg.smtp_password == "")

/-- `_compute_level`: count thresholds from the front while `value >= t`,
stopping at the first threshold above the value. -/
def compute_level (value : ℚ) : List ℚ → Nat
  | [] => 0
  | t :: rest => if t ≤ value then compute_level value rest + 1 else 0

/-- Key `armed:<station_no>:<parameter>:<threshold_index>`. -/
def armedKey (st : Station) (i : Nat) : String :=
  "armed:" ++ (st.station_no ++ (":" ++ (st.parameter ++ (":" ++ toString i))))

/-- Key `below_since:<station_no>:<parameter>:<threshold_index>`. -/
def belowKey (st : Station) (i : Nat) : String :=
  "below_since:" ++ (st.station_no ++ (":" ++ (st.parameter ++ (":" ++ toString i))))

/-- Key `last_level:<station_no>:<parameter>`. -/
def lastKey (st : Station) : String :=
  "last_level:" ++ (st.station_no ++ (":" ++ st.parameter))

/-- The truthy flag words accepted by the engine (`in ("1","true","yes","y","on")`). -/
def truthyStr (v : String) : Bool :=
  let t := pyLower (pyStrip v)
  t == "1" || t == "true" || t == "yes" || t == "y" || t == "on"

/-- Decoding of the stored `armed` flag (`check_once`, lines 708–711): default
true when the key is absent or the stored string strips to empty; otherwise the
stripped lowercased string must be a truthy word.  An ISO timestamp string is
nonempty and not a truthy word. -/
def armedOf : Option DBVal → Bool
  | none => true
  | some (.s v) => if pyStrip v == "" then true else truthyStr v
  | some (.ts _) => false

/-- Python truthiness of the stored `below_since` string: `None` and `""` are
falsy, every other string (ISO timestamps included) is truthy. -/
def belowTruthy : Option DBVal → Bool
  | none => false
  | some (.s v) => !(v == "")
  | some (.ts _) => true

/-- `_to_dt(below_since_str)`: only an ISO timestamp string parses to an
instant; raw strings (including `""`) do not. -/
def belowTimeOf : Option DBVal → Option ℚ
  | some (.ts t) => some t
  | _ => none

/-- Notification events observable in one station evaluation: a successfully
sent alert mail, a failed send (caught exception), or the warning printed when
the e-mail configuration is incomplete.  Each carries the threshold index. -/
inductive Event where
  | sent (i : Nat)
  | sendFailed (i : Nat)
  | warnedIncomplete (i : Nat)
deriving DecidableEq

/-- The threshold index an event belongs to. -/
def eventIdx : Event → Nat
  | .sent i => i
  | .sendFailed i => i
  | .warnedIncomplete i => i

/-- Boolean filter for the events of threshold `i`. -/
def evFor (i : Nat) (e : Event) : Bool :=
  eventIdx e == i

/-- The body of the per-threshold loop of `check_once` (lines 703–769) for one
threshold: state reads/writes plus the emitted events.  `dt` is the timestamp
of the measurement (`dt = _to_dt(ts_iso) or now`), `sendOk` tells whether
`send_email` would succeed or raise for this threshold. -/
def threshold_step (cfg : EngineCfg) (st : Station) (value dt : ℚ) (sendOk : Bool)
    (thIdx : Nat) (th : ℚ) (store : StateStore) : StateStore × List Event :=
  let keyA := armedKey st thIdx
  let keyB := belowKey st thIdx
  let armed_str := db_get_state store keyA
  let armed := armedOf armed_str
  let below_str := db_get_state store keyB
  let below_dt := belowTimeOf below_str
  if value < th then
    -- below the threshold: possibly re-arm after the configured time
    if armed = false then
      match below_dt with
      | none => (db_set_state store keyB (.ts dt), [])
      | some t0 =>
        if cfg.rearm_below_hours * 3600 ≤ dt - t0 then
          (db_set_state (db_set_state store keyA (.s "1")) keyB (.s ""), [])
        else (store, [])
    else
      if belowTruthy below_str then (db_set_state store keyB (.s ""), [])
      else (store, [])
  else
    -- at or above the threshold
    let store1 := if belowTruthy below_str then db_set_state store keyB (.s "") else store
    if armed = false then (store1, [])
    else if armed_str = none ∧ cfg.alert_on_start = false then
      (db_set_state store1 keyA (.s "0"), [])
    else if email_config_ok cfg then
      if sendOk then (db_set_state store1 keyA (.s "0"), [Event.sent thIdx])
      else (store1, [Event.sendFailed thIdx])
    else (store1, [Event.warnedIncomplete thIdx])

/-- The effect of one `threshold_step` on its own two state keys and its
events, as a function of the values read there: `(new armed, new below_since,
events)`.  Used to reason about a step inside the loop. -/
def stepOut (cfg : EngineCfg) (value dt : ℚ) (sendOk : Bool) (thIdx : Nat) (th : ℚ)
    (a b : Option DBVal) : Option DBVal × Option DBVal × List Event :=
  let armed := armedOf a
  if value < th then
    if armed = false then
      match belowTimeOf b with
      | none => (a, some (.ts dt), [])
      | some t0 =>
        if cfg.rearm_below_hours * 3600 ≤ dt - t0 then
          (some (.s "1"), some (.s ""), [])
        else (a, b, [])
    else
      if belowTruthy b then (a, some (.s ""), []) else (a, b, [])
  else
    let b1 := if belowTruthy b then some (DBVal.s "") else b
    if armed = false then (a, b1, [])
    else if a = none ∧ cfg.alert_on_start = false then (some (.s "0"), b1, [])
    else if email_config_ok cfg then
      if sendOk then (some (.s "0"), b1, [Event.sent thIdx])
      else (a, b1, [Event.sendFailed thIdx])
    else (a, b1, [Event.warnedIncomplete thIdx])

/-- The `for th_idx, th in enumerate(station.thresholds_cm)` loop of
`check_once`, starting at index `idx`. -/
def thresholds_go (cfg : EngineCfg) (st : Station) (value dt : ℚ) (sendOk : Nat → Bool) :
    Nat → List ℚ → StateStore → StateStore × List Event
  | _, [], store => (store, [])
  | idx, th :: rest, store =>
    let r1 := threshold_step cfg st value dt (sendOk idx) idx th store
    let r2 := thresholds_go cfg st value dt sendOk (idx + 1) rest r1.1
    (r2.1, r1.2 ++ r2.2)

/-- The input of one evaluation cycle for one station: measured value, parsed
measurement timestamp (`None` exactly when `_to_dt(ts_iso)` fails, in which
case the code falls back to the cycle's wall-clock `now`), the wall-clock time
`now` of the cycle, and the send outcomes per threshold index. -/
structure CycleIn where
  value : ℚ
  ts : Option ℚ
  now : ℚ
  sendOk : Nat → Bool

/-- One full station evaluation of `check_once` after the measurement has been
obtained: run the threshold loop (with `dt = _to_dt(ts_iso) or now`), then
persist the last observed level. -/
def station_cycle (cfg : EngineCfg) (st : Station) (c : CycleIn) (store : StateStore) :
    StateStore × List Event :=
  let dt := c.ts.getD c.now
  let r := thresholds_go cfg st c.value dt c.sendOk 0 st.thresholds_cm store
  (db_set_state r.1 (lastKey st) (.s (toString (compute_level c.value st.thresholds_cm))),
   r.2)

/-- A sequence of consecutive evaluation cycles for one station; returns the
final state and the list of event lists, one per cycle. -/
def run_cycles (cfg : EngineCfg) (st : Station) :
    List CycleIn → StateStore → StateStore × List (List Event)
  | [], store => (store, [])
  | c :: rest, store =>
    let r1 := station_cycle cfg st c store
    let r2 := run_cycles cfg st rest r1.1
    (r2.1, r1.2 :: r2.2)

/-! ## Feed client and measurement persistence -/

/-- A JSON field value as far as `_to_dt` / `_try_float` distinguish them: a
number, a string, or `null`/absent.  For strings, the standard-library parsers
(`datetime.fromisoformat`, `float`) are outside this repository and are passed
in as parameters below. -/
inductive PyVal where
  | vnum (q : ℚ)
  | vstr (s : String)
  | vnull
deriving DecidableEq

/-- `_to_dt`: numbers are epoch stamps disambiguated by magnitude (`> 1e12`
milliseconds, `> 1e9` seconds, otherwise invalid); strings are stripped,
rejected when empty, have every `"Z"` replaced by `"+00:00"` and are then
handed to ISO-8601 parsing (`datetime.fromisoformat`, modelled by the
parameter `isoParse`, returning `none` on a parse exception). -/
def to_dt (isoParse : String → Option ℚ) : PyVal → Option ℚ
  | .vnull => none
  | .vnum v =>
    if (1000000000000 : ℚ) < v then some (v / 1000)
    else if (1000000000 : ℚ) < v then some v
    else none
  | .vstr s =>
    let s1 := pyStrip s
    if s1 = "" then none
    else isoParse (s1.replace "Z" "+00:00")

/-- `_try_float`: numbers pass through; strings are stripped, rejected when
empty, have `","` replaced by `"."` and are then parsed by Python's `float`
(modelled by the parameter `floatParse`). -/
def try_float (floatParse : String → Option ℚ) : PyVal → Option ℚ
  | .vnull => none
  | .vnum q => some q
  | .vstr s =>
    let s1 := pyStrip s
    if s1 = "" then none
    else floatParse (s1.replace "," ".")

/-- One entry of the fetched feed index, after `build_index_map` (which keys
entries by `(station_no, stationparameter_name)`). -/
structure Item where
  station_id : String
  timestamp : PyVal
  ts_value : PyVal
  ts_unitsymbol : String
deriving DecidableEq

/-- The index map `(station_no, parameter) -> item`.  A Python dict with
unique keys is modelled as an association list looked up by first match. -/
abbrev IndexMap := List ((String × String) × Item)

/-- Successful result of `latest_for_station`: the parsed measurement
timestamp (the returned `timestamp_iso` string is its `isoformat`, which
`fromisoformat` round-trips), value, source tag and unit. -/
structure Fetched where
  dt : ℚ
  value : ℚ
  source : String
  unit : String
deriving DecidableEq

/-- The item search of `latest_for_station`: primary lookup by
`(station_no.strip(), parameter.strip())`, then — when the primary key misses
and a public station id is configured — a scan for the first entry with the
right parameter whose `station_id` matches. -/
def item_lookup (index_map : IndexMap) (st : Station) : Option Item :=
  let key := (pyStrip st.station_no, pyStrip st.parameter)
  match (index_map.find? (fun p => decide (p.1 = key))).map
      (fun (p : (String × String) × Item) => p.2) with
  | some it => some it
  | none =>
    if st.station_id_public = "" then none
    else
      ((index_map.find? (fun (p : (String × String) × Item) =>
          decide (p.1.2 = st.parameter)
            && decide (pyStrip p.2.station_id = pyStrip st.station_id_public))).map
        (fun (p : (String × String) × Item) => p.2))

/-- `latest_for_station` (lines 572–602): look the station up in the index,
then parse timestamp and value; a miss or a parse failure raises (modelled as
`.error`). -/
def latest_for_station (isoParse floatParse : String → Option ℚ)
    (index_map : IndexMap) (st : Station) : Except String Fetched :=
  match item_lookup index_map st with
  | none => .error "Station nicht im index.json gefunden"
  | some it =>
    match to_dt isoParse it.timestamp, try_float floatParse it.ts_value with
    | some dt, some fv => .ok ⟨dt, fv, "layers:10:index", pyStrip it.ts_unitsymbol⟩
    | _, _ => .error "timestamp/value nicht parsebar"

/-- Primary key of the `measurements` table: `(station_no, parameter, ts)`.
The stored `ts` TEXT is the `isoformat` rendering of the instant, which is an
injective serialisation, so the key is modelled by the instant itself. -/
structure MeasKey where
  station_no : String
  parameter : String
  ts : ℚ
deriving DecidableEq

/-- One row of the `measurements` table. -/
structure MeasRow where
  key : MeasKey
  station_id_public : String
  station_name : String
  value : ℚ
  level : Nat
  source : String
  unit : String
deriving DecidableEq

/-- `INSERT OR IGNORE INTO measurements ...`: appends the row unless a row
with the same primary key already exists. -/
def insert_or_ignore (tbl : List MeasRow) (row : MeasRow) : List MeasRow :=
  if tbl.any (fun r => r.key == row.key) then tbl else tbl ++ [row]

/-- The SQLite database visible to one cycle: the `measurements` table and the
`state` table. -/
structure DB where
  meas : List MeasRow
  state : StateStore

/-- The per-station body of `check_once` (lines 661–776): fetch the latest
measurement from the shared index, insert the measurement row, run the
threshold loop and persist the last level.  A feed miss or parse failure
raises before anything is written, is caught by the per-station `except`, and
marks the cycle failed (`any_fail`). -/
def check_station (cfg : EngineCfg) (isoParse floatParse : String → Option ℚ)
    (index_map : IndexMap) (now : ℚ) (sendOk : Nat → Bool) (st : Station)
    (db : DB) : DB × Bool × List Event :=
  match latest_for_station isoParse floatParse index_map st with
  | .error _ => (db, true, [])
  | .ok f =>
    let level := compute_level f.value st.thresholds_cm
    let meas1 := insert_or_ignore db.meas
      ⟨⟨st.station_no, st.parameter, f.dt⟩, st.station_id_public, st.name,
        f.value, level, f.source, f.unit⟩
    let r := station_cycle cfg st ⟨f.value, some f.dt, now, sendOk⟩ db.state
    (⟨meas1, r.1⟩, false, r.2)

/-- The station loop of `check_once`: evaluate every configured station in
order, collecting for each one its failure flag and events.  The notifier
outcome is modelled per station and threshold (`sendOk`). -/
def run_stations (cfg : EngineCfg) (isoParse floatParse : String → Option ℚ)
    (index_map : IndexMap) (now : ℚ) (sendOk : Station → Nat → Bool) :
    List Station → DB → DB × List (Bool × List Event)
  | [], db => (db, [])
  | st :: rest, db =>
    let r1 := check_station cfg isoParse floatParse index_map now (sendOk st) st db
    let r2 := run_stations cfg isoParse floatParse index_map now sendOk rest r1.1
    (r2.1, r1.2 :: r2.2)

/-- `check_once` after the index fetch: run all stations, then
`return 1 if any_fail else 0`. -/
def check_once (cfg : EngineCfg) (isoParse floatParse : String → Option ℚ)
    (index_map : IndexMap) (now : ℚ) (sendOk : Station → Nat → Bool)
    (stations : List Station) (db : DB) : DB × Nat × List (Bool × List Event) :=
  let r := run_stations cfg isoParse floatParse index_map now sendOk stations db
  (r.1, if r.2.any (fun p => p.1) then 1 else 0, r.2)

/-! ## Configuration parsing -/

/-- The keys of one configuration section that
`_parse_thresholds_for_section` / `_parse_level_names_for_section` read.
An outer `none` means the key is absent, `some none` a JSON `null`.  For
`thresholds_cm`, list elements are `null` or numbers (the CSV string form
parses into the same list of floats and is represented by it); for
`level_names`, the value is a list of strings (the CSV form likewise). -/
structure SectionData where
  thresholds_cm : Option (Option (List (Option ℚ)))
  threshold1_cm : Option (Option ℚ)
  threshold2_cm : Option (Option ℚ)
  threshold3_cm : Option (Option ℚ)
  threshold4_cm : Option (Option ℚ)
  threshold_cm : Option (Option ℚ)
  level_names : Option (Option (List String))

/-- `_thresholds_from_any` on a list value: skip `null` entries. -/
def thresholds_from_any : Option (List (Option ℚ)) → Option (List ℚ)
  | none => none
  | some l => some (l.filterMap id)

/-- The strict-ascension loop
`for i in range(1, len(vals)): vals[i-1] < vals[i]`. -/
def strictlyAsc : List ℚ → Bool
  | [] => true
  | [_] => true
  | a :: b :: rest => decide (a < b) && strictlyAsc (b :: rest)

/-- `float(section_data.get(key) or 0.0)`: absent and `null` (and `0.0`
itself) give `0.0`. -/
def pyOr0 (v : Option (Option ℚ)) : ℚ :=
  (v.getD none).getD 0

/-- Insert into an ascending list, keeping it ascending. -/
def insertAsc (a : ℚ) : List ℚ → List ℚ
  | [] => [a]
  | b :: t => if a ≤ b then a :: b :: t else b :: insertAsc a t

/-- `sorted(vals)`: ascending sort (insertion sort; Python's stable sort
agrees with it on rationals, where equal elements are indistinguishable). -/
def pySorted : List ℚ → List ℚ
  | [] => []
  | a :: t => insertAsc a (pySorted t)

/-- `_parse_thresholds_for_section` (lines 128–173). -/
def parse_thresholds (sec : SectionData) (fallback : List ℚ) : Except String (List ℚ) :=
  match sec.thresholds_cm with
  | some tv =>
    match thresholds_from_any tv with
    | none => .error "thresholds_cm ist gesetzt, aber nicht parsebar"
    | some vals0 =>
      if vals0.length = 3 ∨ vals0.length = 4 then
        let vals := pySorted vals0
        if vals.any (fun v => decide (v ≤ 0)) then
          .error "thresholds_cm: alle Werte muessen positiv sein"
        else if strictlyAsc vals then .ok vals
        else .error "thresholds_cm muss strikt aufsteigend sein"
      else .error "thresholds_cm muss 3 oder 4 Werte haben"
  | none =>
    if sec.threshold1_cm.isSome || sec.threshold2_cm.isSome
        || sec.threshold3_cm.isSome || sec.threshold4_cm.isSome then
      let ts := [pyOr0 sec.threshold1_cm, pyOr0 sec.threshold2_cm,
                 pyOr0 sec.threshold3_cm, pyOr0 sec.threshold4_cm]
      let vals0 := ts.filter (fun t => decide (0 < t))
      if vals0.length = 3 ∨ vals0.length = 4 then
        let vals := pySorted vals0
        if strictlyAsc vals then .ok vals
        else .error "Thresholds muessen strikt aufsteigend sein"
      else .error "es muessen 3 oder 4 Werte gesetzt sein"
    else
      match sec.threshold_cm with
      | some tv =>
        let x := tv.getD 0
        if x ≤ 0 then .error "threshold_cm muss positiv sein" else .ok [x]
      | none => .ok fallback

/-- `_parse_level_names_for_section` (lines 176–191). -/
def parse_level_names (sec : SectionData) (fallback : List String) (n : Nat) :
    Except String (List String) :=
  match sec.level_names with
  | some v =>
    let parts := ((v.getD []).map pyStrip).filter (fun p => !(p == ""))
    if parts.length = n then .ok parts
    else .error "level_names muss zur Anzahl der Thresholds passen"
  | none =>
    if fallback.length = n then .ok fallback
    else .ok ((List.range n).map (fun i => "Warnstufe " ++ toString (i + 1)))

/-! ## Concrete instances used to evaluate the theorems -/

/-- A complete e-mail configuration with the default runtime flags
(`rearm_below_hours = 6`, `alert_on_start = true`). -/
def cfgW : EngineCfg :=
  { rearm_below_hours := 6, alert_on_start := true, email_enabled := true,
    mail_to := "to@example.org", mail_from := "from@example.org",
    smtp_host := "smtp.example.org", smtp_user := "user", smtp_password := "pw" }

/-- `cfgW` with e-mail disabled (incomplete notification configuration). -/
def cfgWoff : EngineCfg :=
  { cfgW with email_enabled := false }

/-- `cfgW` with initial alerts suppressed (`alert_on_start = false`). -/
def cfgWsup : EngineCfg :=
  { cfgW with alert_on_start := false }

/-- A station with the thresholds of the spec's level-computation example. -/
def stW : Station :=
  { name := "Unter-Schmitten - Nidda", station_id_public := "41806",
    station_no := "24810600", parameter := "W",
    thresholds_cm := [150, 180, 200, 220],
    level_names := ["Stufe1", "Stufe2", "Stufe3", "Stufe4"] }

/-- A persisted state with threshold 0 of `stW` armed (`"1"`). -/
def storeW1 : StateStore :=
  fun k => if k = armedKey stW 0 then some (.s "1") else none

/-- A persisted state with threshold 0 of `stW` disarmed and its
`below_since` set to the instant 0. -/
def storeW0 : StateStore :=
  fun k =>
    if k = armedKey stW 0 then some (.s "0")
    else if k = belowKey stW 0 then some (.ts 0) else none

/-- The empty persisted state (first-ever observation of the station). -/
def storeEmpty : StateStore := fun _ => none

/-- A cycle with a high measurement (all thresholds crossed) and every send
succeeding. -/
def cycHigh : CycleIn :=
  { value := 230, ts := some 1000, now := 2000, sendOk := fun _ => true }

/-- A cycle below threshold 0 of `stW` whose wall-clock time `now` is far past
the re-arm deadline while the measurement timestamp is not. -/
def cycLate : CycleIn :=
  { value := 100, ts := some 3600, now := 1000000, sendOk := fun _ => true }

/-- A cycle below threshold 0 of `stW` whose measurement timestamp is past the
re-arm deadline of `storeW0` (6 h after instant 0). -/
def cycRearm : CycleIn :=
  { value := 100, ts := some 30000, now := 0, sendOk := fun _ => true }

/-- A concrete measurement row. -/
def rowW : MeasRow :=
  { key := { station_no := "24810600", parameter := "W", ts := 1000 },
    station_id_public := "41806", station_name := "Unter-Schmitten - Nidda",
    value := 230, level := 4, source := "layers:10:index", unit := "cm" }

/-- A row with the same measurement key as `rowW` but a different value. -/
def rowW2 : MeasRow :=
  { rowW with value := 231 }

/-- A configuration section whose `thresholds_cm` is the given list of
numbers (all other keys absent). -/
def secList (l : List ℚ) : SectionData :=
  { thresholds_cm := some (some (l.map some)), threshold1_cm := none,
    threshold2_cm := none, threshold3_cm := none, threshold4_cm := none,
    threshold_cm := none, level_names := none }

/-- A configuration section carrying only the given `level_names` list. -/
def secNames (parts : List String) : SectionData :=
  { thresholds_cm := none, threshold1_cm := none, threshold2_cm := none,
    threshold3_cm := none, threshold4_cm := none, threshold_cm := none,
    level_names := some (some parts) }

/-- A feed item for `stW` with numeric timestamp (epoch seconds) and value. -/
def itemW : Item :=
  { station_id := "41806", timestamp := .vnum 1600000000,
    ts_value := .vnum 230, ts_unitsymbol := "cm" }

/-- An index holding only `itemW` under the key of `stW`. -/
def imapW : IndexMap := [(("24810600", "W"), itemW)]

/-- A station that is absent from `imapW` (and has no public id to fall back
to). -/
def stBad : Station :=
  { name := "Geisterstation", station_id_public := "", station_no := "999",
    parameter := "W", thresholds_cm := [10, 20, 30],
    level_names := ["a", "b", "c"] }

/-- A database with no measurements and threshold 0 of `stW` armed. -/
def dbW : DB := { meas := [], state := storeW1 }

/-- Send outcomes where exactly threshold 0 fails. -/
def sendFail0 : Nat → Bool := fun j => !(j == 0)

/-! ## Basic state-store and key lemmas -/

theorem get_set (store : StateStore) (k : String) (v : DBVal) (k2 : String) :
    db_get_state (db_set_state store k v) k2 =
      if k2 = k then some v else db_get_state store k2 := rfl

theorem get_set_same (store : StateStore) (k : String) (v : DBVal) :
    db_get_state (db_set_state store k v) k = some v := by
  simp [get_set]

theorem get_set_ne (store : StateStore) (k : String) (v : DBVal) (k2 : String)
    (h : k2 ≠ k) : db_get_state (db_set_state store k v) k2 = db_get_state store k2 := by
  simp [get_set, h]

theorem armedKey_ne_belowKey (st1 st2 : Station) (i j : Nat) :
    armedKey st1 i ≠ belowKey st2 j := by
  intro h
  have hd := congrArg String.data h
  simp only [armedKey, belowKey, String.data_append] at hd
  simp at hd

theorem belowKey_ne_armedKey (st1 st2 : Station) (i j : Nat) :
    belowKey st1 i ≠ armedKey st2 j :=
  fun h => armedKey_ne_belowKey st2 st1 j i h.symm

theorem lastKey_ne_armedKey (st1 st2 : Station) (i : Nat) :
    lastKey st1 ≠ armedKey st2 i := by
  intro h
  have hd := congrArg String.data h
  simp only [lastKey, armedKey, String.data_append] at hd
  simp at hd

theorem lastKey_ne_belowKey (st1 st2 : Station) (i : Nat) :
    lastKey st1 ≠ belowKey st2 i := by
  intro h
  have hd := congrArg String.data h
  simp only [lastKey, belowKey, String.data_append] at hd
  simp at hd

theorem toString_nat_inj4 : ∀ i < 4, ∀ j < 4, toString i = toString j → i = j := by
  decide

theorem armedKey_inj (st : Station) (i j : Nat) (hi : i < 4) (hj : j < 4)
    (h : armedKey st i = armedKey st j) : i = j := by
  have hd := congrArg String.data h
  simp only [armedKey, String.data_append] at hd
  have hd2 := List.append_cancel_left hd
  have hd3 := List.append_cancel_left hd2
  have hd4 := List.append_cancel_left hd3
  have hd5 := List.append_cancel_left hd4
  have hd6 := List.append_cancel_left hd5
  exact toString_nat_inj4 i hi j hj (String.ext hd6)

theorem belowKey_inj (st : Station) (i j : Nat) (hi : i < 4) (hj : j < 4)
    (h : belowKey st i = belowKey st j) : i = j := by
  have hd := congrArg String.data h
  simp only [belowKey, String.data_append] at hd
  have hd2 := List.append_cancel_left hd
  have hd3 := List.append_cancel_left hd2
  have hd4 := List.append_cancel_left hd3
  have hd5 := List.append_cancel_left hd4
  have hd6 := List.append_cancel_left hd5
  exact toString_nat_inj4 i hi j hj (String.ext hd6)

theorem armedKey_ne_of_ne (st : Station) (i j : Nat) (hi : i < 4) (hj : j < 4)
    (h : i ≠ j) : armedKey st i ≠ armedKey st j :=
  fun he => h (armedKey_inj st i j hi hj he)

theorem belowKey_ne_of_ne (st : Station) (i j : Nat) (hi : i < 4) (hj : j < 4)
    (h : i ≠ j) : belowKey st i ≠ belowKey st j :=
  fun he => h (belowKey_inj st i j hi hj he)

/-! ## Behaviour of one threshold step -/

theorem step_spec (cfg : EngineCfg) (st : Station) (value dt : ℚ) (sOk : Bool)
    (i : Nat) (th : ℚ) (store : StateStore) :
    db_get_state (threshold_step cfg st value dt sOk i th store).1 (armedKey st i) =
      (stepOut cfg value dt sOk i th
        (db_get_state store (armedKey st i)) (db_get_state store (belowKey st i))).1
    ∧ db_get_state (threshold_step cfg st value dt sOk i th store).1 (belowKey st i) =
      (stepOut cfg value dt sOk i th
        (db_get_state store (armedKey st i)) (db_get_state store (belowKey st i))).2.1
    ∧ (threshold_step cfg st value dt sOk i th store).2 =
      (stepOut cfg value dt sOk i th
        (db_get_state store (armedKey st i)) (db_get_state store (belowKey st i))).2.2 := by
  have hAB := armedKey_ne_belowKey st st i i
  have hBA := belowKey_ne_armedKey st st i i
  by_cases h1 : value < th
  · by_cases h2 : armedOf (db_get_state store (armedKey st i)) = false
    · cases hb : belowTimeOf (db_get_state store (belowKey st i)) with
      | none => simp [threshold_step, stepOut, h1, h2, hb, get_set, hAB, hBA]
      | some t0 =>
        by_cases h3 : cfg.rearm_below_hours * 3600 ≤ dt - t0 <;>
          simp [threshold_step, stepOut, h1, h2, hb, h3, get_set, hAB, hBA]
    · by_cases h3 : belowTruthy (db_get_state store (belowKey st i)) = true <;>
        simp [threshold_step, stepOut, h1, h2, h3, get_set, hAB, hBA]
  · by_cases h2 : armedOf (db_get_state store (armedKey st i)) = false
    · by_cases h3 : belowTruthy (db_get_state store (belowKey st i)) = true <;>
        simp [threshold_step, stepOut, h1, h2, h3, get_set, hAB, hBA]
    · by_cases h4 : db_get_state store (armedKey st i) = none ∧ cfg.alert_on_start = false
      · by_cases h3 : belowTruthy (db_get_state store (belowKey st i)) = true <;>
          simp [threshold_step, stepOut, h1, h2, h3, h4, get_set, hAB, hBA, armedOf]
      · by_cases h5 : email_config_ok cfg = true
        · cases sOk <;>
            by_cases h3 : belowTruthy (db_get_state store (belowKey st i)) = true <;>
            simp [threshold_step, stepOut, h1, h2, h3, h4, h5, get_set, hAB, hBA]
        · by_cases h3 : belowTruthy (db_get_state store (belowKey st i)) = true <;>
            simp [threshold_step, stepOut, h1, h2, h3, h4, h5, get_set, hAB, hBA]

theorem step_frame (cfg : EngineCfg) (st : Station) (value dt : ℚ) (sOk : Bool)
    (j : Nat) (th : ℚ) (store : StateStore) (k : String)
    (h1 : k ≠ armedKey st j) (h2 : k ≠ belowKey st j) :
    db_get_state (threshold_step cfg st value dt sOk j th store).1 k =
      db_get_state store k := by
  by_cases ha : value < th
  · by_cases hb : armedOf (db_get_state store (armedKey st j)) = false
    · cases hc : belowTimeOf (db_get_state store (belowKey st j)) with
      | none => simp [threshold_step, ha, hb, hc, get_set, h1, h2]
      | some t0 =>
        by_cases hd : cfg.rearm_below_hours * 3600 ≤ dt - t0 <;>
          simp [threshold_step, ha, hb, hc, hd, get_set, h1, h2]
    · by_cases hc : belowTruthy (db_get_state store (belowKey st j)) = true <;>
        simp [threshold_step, ha, hb, hc, get_set, h1, h2]
  · by_cases hb : armedOf (db_get_state store (armedKey st j)) = false
    · by_cases hc : belowTruthy (db_get_state store (belowKey st j)) = true <;>
        simp [threshold_step, ha, hb, hc, get_set, h1, h2]
    · by_cases hd : db_get_state store (armedKey st j) = none ∧ cfg.alert_on_start = false
      · by_cases hc : belowTruthy (db_get_state store (belowKey st j)) = true <;>
          simp [threshold_step, ha, hb, hc, hd, get_set, h1, h2, armedOf]
      · by_cases he : email_config_ok cfg = true
        · cases sOk <;>
            by_cases hc : belowTruthy (db_get_state store (belowKey st j)) = true <;>
            simp [threshold_step, ha, hb, hc, hd, he, get_set, h1, h2]
        · by_cases hc : belowTruthy (db_get_state store (belowKey st j)) = true <;>
            simp [threshold_step, ha, hb, hc, hd, he, get_set, h1, h2]

theorem stepOut_events_idx (cfg : EngineCfg) (value dt : ℚ) (sOk : Bool)
    (i : Nat) (th : ℚ) (a b : Option DBVal) :
    ∀ e ∈ (stepOut cfg value dt sOk i th a b).2.2, eventIdx e = i := by
  by_cases h1 : value < th
  · by_cases h2 : armedOf a = false
    · cases hb : belowTimeOf b with
      | none => simp [stepOut, h1, h2, hb]
      | some t0 =>
        by_cases h3 : cfg.rearm_below_hours * 3600 ≤ dt - t0 <;>
          simp [stepOut, h1, h2, hb, h3]
    · by_cases h3 : belowTruthy b = true <;> simp [stepOut, h1, h2, h3]
  · by_cases h2 : armedOf a = false
    · by_cases h3 : belowTruthy b = true <;> simp [stepOut, h1, h2, h3]
    · by_cases h4 : a = none ∧ cfg.alert_on_start = false
      · by_cases h3 : belowTruthy b = true <;> simp [stepOut, h1, h2, h3, h4, armedOf]
      · by_cases h5 : email_config_ok cfg = true
        · cases sOk <;> by_cases h3 : belowTruthy b = true <;>
            simp [stepOut, h1, h2, h3, h4, h5, eventIdx]
        · by_cases h3 : belowTruthy b = true <;>
            simp [stepOut, h1, h2, h3, h4, h5, eventIdx]

theorem step_events_idx (cfg : EngineCfg) (st : Station) (value dt : ℚ) (sOk : Bool)
    (j : Nat) (th : ℚ) (store : StateStore) :
    ∀ e ∈ (threshold_step cfg st value dt sOk j th store).2, eventIdx e = j := by
  have hs := (step_spec cfg st value dt sOk j th store).2.2
  rw [hs]
  exact stepOut_events_idx cfg value dt sOk j th _ _

theorem filter_evFor_of_ne (i j : Nat) (h : j ≠ i) (evs : List Event)
    (hevs : ∀ e ∈ evs, eventIdx e = j) : evs.filter (evFor i) = [] := by
  rw [List.filter_eq_nil_iff]
  intro e he
  have := hevs e he
  simp [evFor, this, h]

theorem filter_evFor_self (i : Nat) (evs : List Event)
    (hevs : ∀ e ∈ evs, eventIdx e = i) : evs.filter (evFor i) = evs := by
  rw [List.filter_eq_self]
  intro e he
  simp [evFor, hevs e he]

/-! ## Behaviour of the whole threshold loop -/

theorem go_frame (cfg : EngineCfg) (st : Station) (value dt : ℚ) (sendOk : Nat → Bool)
    (i : Nat) (hi : i < 4) :
    ∀ (rest : List ℚ) (idx : Nat) (store : StateStore),
      idx + rest.length ≤ 4 → (∀ m, m < rest.length → idx + m ≠ i) →
      db_get_state (thresholds_go cfg st value dt sendOk idx rest store).1 (armedKey st i)
        = db_get_state store (armedKey st i)
      ∧ db_get_state (thresholds_go cfg st value dt sendOk idx rest store).1 (belowKey st i)
        = db_get_state store (belowKey st i)
      ∧ (thresholds_go cfg st value dt sendOk idx rest store).2.filter (evFor i) = [] := by
  intro rest
  induction rest with
  | nil => intro idx store _ _; exact ⟨rfl, rfl, rfl⟩
  | cons th tail ih =>
    intro idx store hb hne
    have hidx4 : idx < 4 := by
      have := hb; simp [List.length_cons] at this; omega
    have hidxne : idx ≠ i := by
      have := hne 0 (by simp); simpa using this
    have hA : armedKey st i ≠ armedKey st idx :=
      armedKey_ne_of_ne st i idx hi hidx4 (fun h => hidxne h.symm)
    have hB : armedKey st i ≠ belowKey st idx := armedKey_ne_belowKey st st i idx
    have hC : belowKey st i ≠ armedKey st idx := belowKey_ne_armedKey st st i idx
    have hD : belowKey st i ≠ belowKey st idx :=
      belowKey_ne_of_ne st i idx hi hidx4 (fun h => hidxne h.symm)
    have hstep1 := step_frame cfg st value dt (sendOk idx) idx th store (armedKey st i) hA hB
    have hstep2 := step_frame cfg st value dt (sendOk idx) idx th store (belowKey st i) hC hD
    have hev := step_events_idx cfg st value dt (sendOk idx) idx th store
    have hrec := ih (idx + 1) (threshold_step cfg st value dt (sendOk idx) idx th store).1
      (by simp [List.length_cons] at hb; omega)
      (by intro m hm; have := hne (m + 1) (by simp [List.length_cons]; omega); omega)
    refine ⟨?_, ?_, ?_⟩
    · show db_get_state (thresholds_go cfg st value dt sendOk (idx + 1) tail _).1
        (armedKey st i) = _
      rw [hrec.1, hstep1]
    · show db_get_state (thresholds_go cfg st value dt sendOk (idx + 1) tail _).1
        (belowKey st i) = _
      rw [hrec.2.1, hstep2]
    · show ((threshold_step cfg st value dt (sendOk idx) idx th store).2 ++
        (thresholds_go cfg st value dt sendOk (idx + 1) tail _).2).filter (evFor i) = []
      rw [List.filter_append, hrec.2.2,
        filter_evFor_of_ne i idx hidxne _ hev, List.nil_append]

theorem go_main (cfg : EngineCfg) (st : Station) (value dt : ℚ) (sendOk : Nat → Bool)
    (i : Nat) (hi : i < 4) :
    ∀ (pre : List ℚ) (thi : ℚ) (post : List ℚ) (idx : Nat) (store : StateStore),
      idx + pre.length = i → idx + pre.length + 1 + post.length ≤ 4 →
      db_get_state (thresholds_go cfg st value dt sendOk idx (pre ++ thi :: post) store).1
          (armedKey st i)
        = (stepOut cfg value dt (sendOk i) i thi
            (db_get_state store (armedKey st i)) (db_get_state store (belowKey st i))).1
      ∧ db_get_state (thresholds_go cfg st value dt sendOk idx (pre ++ thi :: post) store).1
          (belowKey st i)
        = (stepOut cfg value dt (sendOk i) i thi
            (db_get_state store (armedKey st i)) (db_get_state store (belowKey st i))).2.1
      ∧ (thresholds_go cfg st value dt sendOk idx (pre ++ thi :: post) store).2.filter (evFor i)
        = (stepOut cfg value dt (sendOk i) i thi
            (db_get_state store (armedKey st i)) (db_get_state store (belowKey st i))).2.2 := by
  intro pre
  induction pre with
  | nil =>
    intro thi post idx store hpos hb
    simp only [List.length_nil, Nat.add_zero] at hpos
    subst hpos
    simp only [List.nil_append]
    have hspec := step_spec cfg st value dt (sendOk idx) idx thi store
    have hfr := go_frame cfg st value dt sendOk idx hi post (idx + 1)
      (threshold_step cfg st value dt (sendOk idx) idx thi store).1
      (by simp at hb; omega) (by intro m hm; omega)
    have hev := stepOut_events_idx cfg value dt (sendOk idx) idx thi
      (db_get_state store (armedKey st idx)) (db_get_state store (belowKey st idx))
    refine ⟨?_, ?_, ?_⟩
    · show db_get_state (thresholds_go cfg st value dt sendOk (idx + 1) post _).1
        (armedKey st idx) = _
      rw [hfr.1, hspec.1]
    · show db_get_state (thresholds_go cfg st value dt sendOk (idx + 1) post _).1
        (belowKey st idx) = _
      rw [hfr.2.1, hspec.2.1]
    · show ((threshold_step cfg st value dt (sendOk idx) idx thi store).2 ++
        (thresholds_go cfg st value dt sendOk (idx + 1) post _).2).filter (evFor idx) = _
      rw [List.filter_append, hfr.2.2, hspec.2.2, List.append_nil]
      exact filter_evFor_self idx _ hev
  | cons p pre ih =>
    intro thi post idx store hpos hb
    simp only [List.length_cons] at hpos hb
    have hidx4 : idx < 4 := by omega
    have hidxne : idx ≠ i := by omega
    have hA : armedKey st i ≠ armedKey st idx :=
      armedKey_ne_of_ne st i idx hi hidx4 (fun h => hidxne h.symm)
    have hB : armedKey st i ≠ belowKey st idx := armedKey_ne_belowKey st st i idx
    have hC : belowKey st i ≠ armedKey st idx := belowKey_ne_armedKey st st i idx
    have hD : belowKey st i ≠ belowKey st idx :=
      belowKey_ne_of_ne st i idx hi hidx4 (fun h => hidxne h.symm)
    have hstep1 := step_frame cfg st value dt (sendOk idx) idx p store (armedKey st i) hA hB
    have hstep2 := step_frame cfg st value dt (sendOk idx) idx p store (belowKey st i) hC hD
    have hev := step_events_idx cfg st value dt (sendOk idx) idx p store
    have hrec := ih thi post (idx + 1)
      (threshold_step cfg st value dt (sendOk idx) idx p store).1
      (by omega) (by omega)
    rw [hstep1, hstep2] at hrec
    refine ⟨?_, ?_, ?_⟩
    · show db_get_state
        (thresholds_go cfg st value dt sendOk (idx + 1) (pre ++ thi :: post) _).1
        (armedKey st i) = _
      exact hrec.1
    · show db_get_state
        (thresholds_go cfg st value dt sendOk (idx + 1) (pre ++ thi :: post) _).1
        (belowKey st i) = _
      exact hrec.2.1
    · show ((threshold_step cfg st value dt (sendOk idx) idx p store).2 ++
        (thresholds_go cfg st value dt sendOk (idx + 1) (pre ++ thi :: post) _).2).filter
          (evFor i) = _
      rw [List.filter_append, filter_evFor_of_ne i idx hidxne _ hev, List.nil_append]
      exact hrec.2.2

/-- The effect of one full station cycle on the state keys and events of
threshold `i`, expressed through `stepOut` applied to the values read there. -/
theorem station_cycle_at (cfg : EngineCfg) (st : Station) (c : CycleIn)
    (store : StateStore) (i : Nat)
    (hlen : st.thresholds_cm.length ≤ 4) (hi : i < st.thresholds_cm.length) :
    db_get_state (station_cycle cfg st c store).1 (armedKey st i)
      = (stepOut cfg c.value (c.ts.getD c.now) (c.sendOk i) i (st.thresholds_cm.get ⟨i, hi⟩)
          (db_get_state store (armedKey st i)) (db_get_state store (belowKey st i))).1
    ∧ db_get_state (station_cycle cfg st c store).1 (belowKey st i)
      = (stepOut cfg c.value (c.ts.getD c.now) (c.sendOk i) i (st.thresholds_cm.get ⟨i, hi⟩)
          (db_get_state store (armedKey st i)) (db_get_state store (belowKey st i))).2.1
    ∧ (station_cycle cfg st c store).2.filter (evFor i)
      = (stepOut cfg c.value (c.ts.getD c.now) (c.sendOk i) i (st.thresholds_cm.get ⟨i, hi⟩)
          (db_get_state store (armedKey st i)) (db_get_state store (belowKey st i))).2.2 := by
  have hi4 : i < 4 := lt_of_lt_of_le hi hlen
  have hsplit : st.thresholds_cm =
      st.thresholds_cm.take i ++ st.thresholds_cm.get ⟨i, hi⟩ :: st.thresholds_cm.drop (i + 1) := by
    conv_lhs => rw [← List.take_append_drop i st.thresholds_cm]
    rw [List.drop_eq_getElem_cons hi]
    rfl
  have hmain := go_main cfg st c.value (c.ts.getD c.now) c.sendOk i hi4
    (st.thresholds_cm.take i) (st.thresholds_cm.get ⟨i, hi⟩) (st.thresholds_cm.drop (i + 1))
    0 store
    (by simp [List.length_take]; omega)
    (by simp [List.length_take, List.length_drop]; omega)
  rw [← hsplit] at hmain
  have hL1 : armedKey st i ≠ lastKey st := (lastKey_ne_armedKey st st i).symm
  have hL2 : belowKey st i ≠ lastKey st := (lastKey_ne_belowKey st st i).symm
  unfold station_cycle
  refine ⟨?_, ?_, ?_⟩
  · rw [get_set_ne _ _ _ _ hL1]; exact hmain.1
  · rw [get_set_ne _ _ _ _ hL2]; exact hmain.2.1
  · exact hmain.2.2

/-! ## Evaluations of `stepOut` in the situations of the claims -/

theorem stepOut_armed_send_ok (cfg : EngineCfg) (value dt : ℚ) (i : Nat) (th : ℚ)
    (a b : Option DBVal) (hv : th ≤ value) (ha : armedOf a = true) (hne : a ≠ none)
    (hemail : email_config_ok cfg = true) :
    stepOut cfg value dt true i th a b =
      (some (.s "0"), (if belowTruthy b then some (.s "") else b), [Event.sent i]) := by
  have h1 : ¬ value < th := not_lt.mpr hv
  have h2 : ¬ armedOf a = false := by simp [ha]
  have h4 : ¬ (a = none ∧ cfg.alert_on_start = false) := fun h => hne h.1
  by_cases h3 : belowTruthy b = true <;>
    simp [stepOut, h1, h2, h3, h4, hemail]

theorem stepOut_armed_send_fail (cfg : EngineCfg) (value dt : ℚ) (i : Nat) (th : ℚ)
    (a b : Option DBVal) (hv : th ≤ value) (ha : armedOf a = true) (hne : a ≠ none)
    (hemail : email_config_ok cfg = true) :
    stepOut cfg value dt false i th a b =
      (a, (if belowTruthy b then some (.s "") else b), [Event.sendFailed i]) := by
  have h1 : ¬ value < th := not_lt.mpr hv
  have h2 : ¬ armedOf a = false := by simp [ha]
  have h4 : ¬ (a = none ∧ cfg.alert_on_start = false) := fun h => hne h.1
  by_cases h3 : belowTruthy b = true <;>
    simp [stepOut, h1, h2, h3, h4, hemail]

theorem stepOut_armed_no_email (cfg : EngineCfg) (value dt : ℚ) (sOk : Bool)
    (i : Nat) (th : ℚ) (a b : Option DBVal) (hv : th ≤ value) (ha : armedOf a = true)
    (hne : ¬ (a = none ∧ cfg.alert_on_start = false))
    (hemail : email_config_ok cfg = false) :
    stepOut cfg value dt sOk i th a b =
      (a, (if belowTruthy b then some (.s "") else b), [Event.warnedIncomplete i]) := by
  have h1 : ¬ value < th := not_lt.mpr hv
  have h2 : ¬ armedOf a = false := by simp [ha]
  have h5 : ¬ email_config_ok cfg = true := by simp [hemail]
  by_cases h3 : belowTruthy b = true <;>
    simp [stepOut, h1, h2, h3, hne, h5]

theorem stepOut_suppress (cfg : EngineCfg) (value dt : ℚ) (sOk : Bool)
    (i : Nat) (th : ℚ) (b : Option DBVal) (hv : th ≤ value)
    (hstart : cfg.alert_on_start = false) :
    stepOut cfg value dt sOk i th none b =
      (some (.s "0"), (if belowTruthy b then some (.s "") else b), []) := by
  have h1 : ¬ value < th := not_lt.mpr hv
  have h2 : ¬ armedOf (none : Option DBVal) = false := by simp [armedOf]
  by_cases h3 : belowTruthy b = true <;>
    simp [stepOut, h1, h2, h3, hstart, armedOf]

theorem stepOut_disarmed_above (cfg : EngineCfg) (value dt : ℚ) (sOk : Bool)
    (i : Nat) (th : ℚ) (a b : Option DBVal) (hv : th ≤ value)
    (ha : armedOf a = false) :
    stepOut cfg value dt sOk i th a b =
      (a, (if belowTruthy b then some (.s "") else b), []) := by
  have h1 : ¬ value < th := not_lt.mpr hv
  by_cases h3 : belowTruthy b = true <;>
    simp [stepOut, h1, ha, h3]

theorem stepOut_below_rearm (cfg : EngineCfg) (value dt : ℚ) (sOk : Bool)
    (i : Nat) (th : ℚ) (a : Option DBVal) (t0 : ℚ) (hv : value < th)
    (ha : armedOf a = false) :
    stepOut cfg value dt sOk i th a (some (.ts t0)) =
      (if cfg.rearm_below_hours * 3600 ≤ dt - t0 then
        (some (.s "1"), some (.s ""), [])
      else (a, some (.ts t0), [])) := by
  by_cases h3 : cfg.rearm_below_hours * 3600 ≤ dt - t0 <;>
    simp [stepOut, hv, ha, h3, belowTimeOf]

/-! ## Cycle-level consequences -/

theorem run_cycles_cons (cfg : EngineCfg) (st : Station) (c : CycleIn)
    (rest : List CycleIn) (store : StateStore) :
    run_cycles cfg st (c :: rest) store =
      ((run_cycles cfg st rest (station_cycle cfg st c store).1).1,
        (station_cycle cfg st c store).2 ::
          (run_cycles cfg st rest (station_cycle cfg st c store).1).2) := rfl

/-- In a cycle at or above threshold `i` whose stored flag decodes to armed
and exists, with complete e-mail configuration and a succeeding send, the
cycle disarms the threshold and emits exactly the send event for it. -/
theorem cycle_armed_send_ok (cfg : EngineCfg) (st : Station) (c : CycleIn)
    (store : StateStore) (i : Nat) (a0 : DBVal)
    (hlen : st.thresholds_cm.length ≤ 4) (hi : i < st.thresholds_cm.length)
    (hv : st.thresholds_cm.get ⟨i, hi⟩ ≤ c.value)
    (ha : db_get_state store (armedKey st i) = some a0)
    (harm : armedOf (some a0) = true)
    (hemail : email_config_ok cfg = true)
    (hsend : c.sendOk i = true) :
    db_get_state (station_cycle cfg st c store).1 (armedKey st i) = some (.s "0")
    ∧ (station_cycle cfg st c store).2.filter (evFor i) = [Event.sent i] := by
  have hat := station_cycle_at cfg st c store i hlen hi
  rw [ha, hsend] at hat
  rw [stepOut_armed_send_ok cfg c.value (c.ts.getD c.now) i
      (st.thresholds_cm.get ⟨i, hi⟩) (some a0) (db_get_state store (belowKey st i))
      hv harm (by simp) hemail] at hat
  exact ⟨hat.1, hat.2.2⟩

/-- In a cycle at or above threshold `i` whose stored flag is the disarmed
string `"0"`, nothing for this threshold happens: the flag is unchanged and no
event for it is emitted. -/
theorem cycle_disarmed (cfg : EngineCfg) (st : Station) (c : CycleIn)
    (store : StateStore) (i : Nat)
    (hlen : st.thresholds_cm.length ≤ 4) (hi : i < st.thresholds_cm.length)
    (hv : st.thresholds_cm.get ⟨i, hi⟩ ≤ c.value)
    (ha : db_get_state store (armedKey st i) = some (.s "0")) :
    db_get_state (station_cycle cfg st c store).1 (armedKey st i) = some (.s "0")
    ∧ (station_cycle cfg st c store).2.filter (evFor i) = [] := by
  have hat := station_cycle_at cfg st c store i hlen hi
  rw [ha] at hat
  rw [stepOut_disarmed_above cfg c.value (c.ts.getD c.now) (c.sendOk i) i
      (st.thresholds_cm.get ⟨i, hi⟩) (some (.s "0")) (db_get_state store (belowKey st i))
      hv (by decide)] at hat
  exact ⟨hat.1, hat.2.2⟩

/-- Once threshold `i` is stored disarmed (`"0"`), any run of cycles at or
above it keeps it disarmed and emits no event for it. -/
theorem run_cycles_disarmed (cfg : EngineCfg) (st : Station) (i : Nat)
    (hlen : st.thresholds_cm.length ≤ 4) (hi : i < st.thresholds_cm.length) :
    ∀ (inputs : List CycleIn) (store : StateStore),
      db_get_state store (armedKey st i) = some (.s "0") →
      (∀ c ∈ inputs, st.thresholds_cm.get ⟨i, hi⟩ ≤ c.value) →
      db_get_state (run_cycles cfg st inputs store).1 (armedKey st i) = some (.s "0")
      ∧ ∀ evs ∈ (run_cycles cfg st inputs store).2, evs.filter (evFor i) = [] := by
  intro inputs
  induction inputs with
  | nil => intro store h0 _; exact ⟨h0, by simp [run_cycles]⟩
  | cons c rest ih =>
    intro store h0 hval
    have hcyc := cycle_disarmed cfg st c store i hlen hi (hval c (by simp)) h0
    have hrec := ih (station_cycle cfg st c store).1 hcyc.1
      (fun c2 hc2 => hval c2 (by simp [hc2]))
    rw [run_cycles_cons]
    refine ⟨hrec.1, ?_⟩
    intro evs hevs
    rcases List.mem_cons.mp hevs with h | h
    · rw [h]; exact hcyc.2
    · exact hrec.2 evs h

/-- C1: for every threshold of a station whose persisted state is armed, and
every sequence of at least one consecutive cycle in which the measured value
is at or above that threshold, with complete e-mail configuration and every
send succeeding, exactly one notification is sent for that threshold, namely
on the first cycle; entering every later cycle the threshold is stored
disarmed, and no notification for it is sent on any later cycle. -/
theorem claim_C1_no_double_fire (cfg : EngineCfg) (st : Station) (i : Nat) (a0 : DBVal)
    (store0 : StateStore) (inputs : List CycleIn)
    (hlen : st.thresholds_cm.length ≤ 4) (hi : i < st.thresholds_cm.length)
    (hemail : email_config_ok cfg = true)
    (ha : db_get_state store0 (armedKey st i) = some a0)
    (harm : armedOf (some a0) = true)
    (hne : inputs ≠ [])
    (hval : ∀ c ∈ inputs, st.thresholds_cm.get ⟨i, hi⟩ ≤ c.value)
    (hsend : ∀ c ∈ inputs, ∀ j, c.sendOk j = true) :
    ((run_cycles cfg st inputs store0).2.headD []).filter (evFor i) = [Event.sent i]
    ∧ (∀ k, 1 ≤ k → k < (run_cycles cfg st inputs store0).2.length →
        ((run_cycles cfg st inputs store0).2.getD k []).filter (evFor i) = [])
    ∧ (∀ k, 1 ≤ k → k ≤ inputs.length →
        db_get_state (run_cycles cfg st (inputs.take k) store0).1 (armedKey st i)
          = some (.s "0")) := by
  rcases List.exists_cons_of_ne_nil hne with ⟨c0, rest, hsplit⟩
  subst hsplit
  have hc0 := cycle_armed_send_ok cfg st c0 store0 i a0 hlen hi
    (hval c0 (by simp)) ha harm hemail (hsend c0 (by simp) i)
  have hrest := run_cycles_disarmed cfg st i hlen hi rest
    (station_cycle cfg st c0 store0).1 hc0.1 (fun c hc => hval c (by simp [hc]))
  refine ⟨?_, ?_, ?_⟩
  · rw [run_cycles_cons]
    simpa using hc0.2
  · intro k hk1 hk2
    rw [run_cycles_cons] at hk2 ⊢
    simp only [List.length_cons] at hk2
    obtain ⟨k', rfl⟩ : ∃ k', k = k' + 1 := ⟨k - 1, by omega⟩
    rw [List.getD_cons_succ]
    have hlt : k' < (run_cycles cfg st rest (station_cycle cfg st c0 store0).1).2.length := by
      omega
    have hmem : (run_cycles cfg st rest (station_cycle cfg st c0 store0).1).2.getD k' [] ∈
        (run_cycles cfg st rest (station_cycle cfg st c0 store0).1).2 := by
      rw [List.getD_eq_getElem _ _ hlt]
      exact List.getElem_mem hlt
    exact hrest.2 _ hmem
  · intro k hk1 hk2
    obtain ⟨k', rfl⟩ : ∃ k', k = k' + 1 := ⟨k - 1, by omega⟩
    rw [List.take_succ_cons, run_cycles_cons]
    have htk : ∀ c ∈ rest.take k', st.thresholds_cm.get ⟨i, hi⟩ ≤ c.value :=
      fun c hc => hval c (by simp [List.take_subset _ _ hc])
    exact (run_cycles_disarmed cfg st i hlen hi (rest.take k')
      (station_cycle cfg st c0 store0).1 hc0.1 htk).1

/-- Closed instance of C1: station `stW`, threshold 0 armed, two consecutive
cycles above every threshold. -/
theorem claim_C1_witness :
    (db_get_state storeW1 (armedKey stW 0) = some (.s "1")
      ∧ armedOf (some (.s "1")) = true)
    ∧ ((run_cycles cfgW stW [cycHigh, cycHigh] storeW1).2.headD []).filter (evFor 0)
        = [Event.sent 0]
    ∧ (∀ k, 1 ≤ k → k < (run_cycles cfgW stW [cycHigh, cycHigh] storeW1).2.length →
        ((run_cycles cfgW stW [cycHigh, cycHigh] storeW1).2.getD k []).filter (evFor 0) = [])
    ∧ (∀ k, 1 ≤ k → k ≤ ([cycHigh, cycHigh] : List CycleIn).length →
        db_get_state (run_cycles cfgW stW (([cycHigh, cycHigh] : List CycleIn).take k)
          storeW1).1 (armedKey stW 0) = some (.s "0")) :=
  ⟨⟨by decide, by decide⟩,
    claim_C1_no_double_fire cfgW stW 0 (.s "1") storeW1 [cycHigh, cycHigh]
      (by decide) (by decide) (by decide) (by decide) (by decide)
      (by simp)
      (by intro c hc; fin_cases hc <;> decide)
      (by intro c hc j; fin_cases hc <;> rfl)⟩

/-- C2 counterexample: the claim ties re-arming to the wall-clock time of the
cycle, but the code compares the measurement timestamp (`dt`) with
`below_since`.  Here the wall clock is far past the re-arm deadline
(`1000000 s ≥ 6 h` after `below_since = 0`), the value is below the
threshold, yet the threshold stays disarmed because the measurement timestamp
(3600 s) is not past the deadline. -/
theorem claim_C2_counterexample :
    cfgW.rearm_below_hours * 3600 ≤ cycLate.now - 0
    ∧ cycLate.value < stW.thresholds_cm.getD 0 0
    ∧ db_get_state storeW0 (armedKey stW 0) = some (.s "0")
    ∧ db_get_state storeW0 (belowKey stW 0) = some (.ts 0)
    ∧ db_get_state (station_cycle cfgW stW cycLate storeW0).1 (armedKey stW 0)
        = some (.s "0") := by
  with_unfolding_all decide

/-- C2 (amended): for a disarmed threshold with `below_since` set and a value
below the threshold, re-arming happens exactly when the *measurement
timestamp* of the cycle (`dt = _to_dt(ts_iso) or now`) is at least
`rearm_below_hours` past `below_since`; below the deadline the state is
unchanged, at or past it the flag becomes `"1"` and `below_since` is
cleared. -/
theorem claim_C2_rearm_on_measurement_time (cfg : EngineCfg) (st : Station)
    (i : Nat) (a0 : DBVal) (t0 : ℚ) (store0 : StateStore) (c : CycleIn)
    (hlen : st.thresholds_cm.length ≤ 4) (hi : i < st.thresholds_cm.length)
    (ha : db_get_state store0 (armedKey st i) = some a0)
    (harm : armedOf (some a0) = false)
    (hb : db_get_state store0 (belowKey st i) = some (.ts t0))
    (hv : c.value < st.thresholds_cm.get ⟨i, hi⟩) :
    (cfg.rearm_below_hours * 3600 ≤ c.ts.getD c.now - t0 →
      db_get_state (station_cycle cfg st c store0).1 (armedKey st i) = some (.s "1")
      ∧ db_get_state (station_cycle cfg st c store0).1 (belowKey st i) = some (.s ""))
    ∧ (c.ts.getD c.now - t0 < cfg.rearm_below_hours * 3600 →
      db_get_state (station_cycle cfg st c store0).1 (armedKey st i) = some a0
      ∧ db_get_state (station_cycle cfg st c store0).1 (belowKey st i) = some (.ts t0))
    ∧ (station_cycle cfg st c store0).2.filter (evFor i) = [] := by
  have hat := station_cycle_at cfg st c store0 i hlen hi
  rw [ha, hb] at hat
  rw [stepOut_below_rearm cfg c.value (c.ts.getD c.now) (c.sendOk i) i
      (st.thresholds_cm.get ⟨i, hi⟩) (some a0) t0 hv harm] at hat
  refine ⟨?_, ?_, ?_⟩
  · intro hge
    rw [if_pos hge] at hat
    exact ⟨hat.1, hat.2.1⟩
  · intro hlt
    rw [if_neg (not_le.mpr hlt)] at hat
    exact ⟨hat.1, hat.2.1⟩
  · rcases le_or_lt (cfg.rearm_below_hours * 3600) (c.ts.getD c.now - t0) with hge | hlt
    · rw [if_pos hge] at hat; exact hat.2.2
    · rw [if_neg (not_le.mpr hlt)] at hat; exact hat.2.2

/-- Closed instance of the amended C2: with `below_since = 0` and a
measurement timestamp past the 6 h deadline, the threshold re-arms. -/
theorem claim_C2_witness :
    (armedOf (some (DBVal.s "0")) = false
      ∧ cfgW.rearm_below_hours * 3600 ≤ cycRearm.ts.getD cycRearm.now - 0)
    ∧ db_get_state (station_cycle cfgW stW cycRearm storeW0).1 (armedKey stW 0)
        = some (.s "1")
    ∧ db_get_state (station_cycle cfgW stW cycRearm storeW0).1 (belowKey stW 0)
        = some (.s "") :=
  ⟨⟨by decide, by with_unfolding_all decide⟩,
    (claim_C2_rearm_on_measurement_time cfgW stW 0 (.s "0") 0 storeW0 cycRearm
      (by decide) (by decide) (by decide) (by decide) (by decide) (by decide)).1
      (by with_unfolding_all decide)⟩

/-! ## C4: first-observation suppression -/

theorem go_suppress_events (cfg : EngineCfg) (st : Station) (value dt : ℚ)
    (sendOk : Nat → Bool) (hstart : cfg.alert_on_start = false) :
    ∀ (rest : List ℚ) (idx : Nat) (store : StateStore),
      idx + rest.length ≤ 4 →
      (∀ m, m < rest.length → db_get_state store (armedKey st (idx + m)) = none) →
      (∀ t ∈ rest, t ≤ value) →
      (thresholds_go cfg st value dt sendOk idx rest store).2 = [] := by
  intro rest
  induction rest with
  | nil => intro idx store _ _ _; rfl
  | cons th tail ih =>
    intro idx store hb hnone hval
    have hidx4 : idx < 4 := by simp [List.length_cons] at hb; omega
    have ha : db_get_state store (armedKey st idx) = none := by
      have := hnone 0 (by simp); simpa using this
    have hspec := step_spec cfg st value dt (sendOk idx) idx th store
    rw [ha] at hspec
    rw [stepOut_suppress cfg value dt (sendOk idx) idx th
        (db_get_state store (belowKey st idx)) (hval th (by simp)) hstart] at hspec
    have hrec := ih (idx + 1) (threshold_step cfg st value dt (sendOk idx) idx th store).1
      (by simp [List.length_cons] at hb; omega)
      (by
        intro m hm
        have hm4 : idx + 1 + m < 4 := by simp [List.length_cons] at hb; omega
        have hne1 : armedKey st (idx + 1 + m) ≠ armedKey st idx :=
          armedKey_ne_of_ne st (idx + 1 + m) idx hm4 hidx4 (by omega)
        have hne2 : armedKey st (idx + 1 + m) ≠ belowKey st idx :=
          armedKey_ne_belowKey st st (idx + 1 + m) idx
        rw [step_frame cfg st value dt (sendOk idx) idx th store _ hne1 hne2]
        have := hnone (1 + m) (by simp [List.length_cons]; omega)
        rw [← Nat.add_assoc] at this
        exact this)
      (fun t ht => hval t (by simp [ht]))
    show ((threshold_step cfg st value dt (sendOk idx) idx th store).2 ++
      (thresholds_go cfg st value dt sendOk (idx + 1) tail _).2) = []
    rw [hrec, hspec.2.2, List.append_nil]

/-- C4: with `alert_on_start = false`, a threshold with no previously
persisted flag that sees a value at or above itself is set to disarmed
(`"0"`) without any event for it; hence on a first-ever cycle with the value
at or above *every* threshold, no notification of any kind is emitted and
every threshold's flag is persisted as disarmed. -/
theorem claim_C4_first_observation_suppression (cfg : EngineCfg) (st : Station)
    (store0 : StateStore) (c : CycleIn)
    (hlen : st.thresholds_cm.length ≤ 4)
    (hstart : cfg.alert_on_start = false)
    (hnostate : ∀ i, i < st.thresholds_cm.length →
      db_get_state store0 (armedKey st i) = none)
    (hval : ∀ t ∈ st.thresholds_cm, t ≤ c.value) :
    (∀ (store : StateStore) (c2 : CycleIn) (i : Nat)
        (hi : i < st.thresholds_cm.length),
        db_get_state store (armedKey st i) = none →
        st.thresholds_cm.get ⟨i, hi⟩ ≤ c2.value →
        db_get_state (station_cycle cfg st c2 store).1 (armedKey st i) = some (.s "0")
        ∧ (station_cycle cfg st c2 store).2.filter (evFor i) = [])
    ∧ (station_cycle cfg st c store0).2 = []
    ∧ ∀ i (hi : i < st.thresholds_cm.length),
        db_get_state (station_cycle cfg st c store0).1 (armedKey st i) = some (.s "0") := by
  refine ⟨?_, ?_, ?_⟩
  · intro store c2 i hi hn hv
    have hat := station_cycle_at cfg st c2 store i hlen hi
    rw [hn] at hat
    rw [stepOut_suppress cfg c2.value (c2.ts.getD c2.now) (c2.sendOk i) i
        (st.thresholds_cm.get ⟨i, hi⟩) (db_get_state store (belowKey st i))
        hv hstart] at hat
    exact ⟨hat.1, hat.2.2⟩
  · show (thresholds_go cfg st c.value (c.ts.getD c.now) c.sendOk 0 st.thresholds_cm store0).2 = []
    exact go_suppress_events cfg st c.value (c.ts.getD c.now) c.sendOk hstart
      st.thresholds_cm 0 store0 (by omega)
      (fun m hm => by rw [Nat.zero_add]; exact hnostate m (by omega)) hval
  · intro i hi
    have hat := station_cycle_at cfg st c store0 i hlen hi
    rw [hnostate i hi] at hat
    rw [stepOut_suppress cfg c.value (c.ts.getD c.now) (c.sendOk i) i
        (st.thresholds_cm.get ⟨i, hi⟩) (db_get_state store0 (belowKey st i))
        (hval _ (List.get_mem st.thresholds_cm i hi)) hstart] at hat
    exact hat.1

/-- Closed instance of C4: empty persisted state, value above all four
thresholds of `stW`, initial alerts suppressed. -/
theorem claim_C4_witness :
    (cfgWsup.alert_on_start = false
      ∧ (∀ i, i < stW.thresholds_cm.length →
          db_get_state storeEmpty (armedKey stW i) = none)
      ∧ (∀ t ∈ stW.thresholds_cm, t ≤ cycHigh.value))
    ∧ (station_cycle cfgWsup stW cycHigh storeEmpty).2 = []
    ∧ (∀ i (hi : i < stW.thresholds_cm.length),
        db_get_state (station_cycle cfgWsup stW cycHigh storeEmpty).1 (armedKey stW i)
          = some (.s "0")) :=
  ⟨⟨by decide, by decide, by decide⟩,
    (claim_C4_first_observation_suppression cfgWsup stW storeEmpty cycHigh
      (by decide) (by decide) (by decide) (by decide)).2⟩

/-! ## C10: crossing with incomplete e-mail configuration -/

/-- In a cycle at or above threshold `i` whose stored flag decodes to armed,
with incomplete e-mail configuration (and not in the first-observation
suppression case), no send is attempted: the cycle emits exactly the
incomplete-configuration warning for `i`, leaves the armed flag untouched and
only clears `below_since`. -/
theorem cycle_armed_no_email (cfg : EngineCfg) (st : Station) (c : CycleIn)
    (store : StateStore) (i : Nat) (a0 : DBVal)
    (hlen : st.thresholds_cm.length ≤ 4) (hi : i < st.thresholds_cm.length)
    (hv : st.thresholds_cm.get ⟨i, hi⟩ ≤ c.value)
    (ha : db_get_state store (armedKey st i) = some a0)
    (harm : armedOf (some a0) = true)
    (hemail : email_config_ok cfg = false) :
    db_get_state (station_cycle cfg st c store).1 (armedKey st i) = some a0
    ∧ db_get_state (station_cycle cfg st c store).1 (belowKey st i)
      = (if belowTruthy (db_get_state store (belowKey st i)) then some (.s "")
         else db_get_state store (belowKey st i))
    ∧ (station_cycle cfg st c store).2.filter (evFor i) = [Event.warnedIncomplete i] := by
  have hat := station_cycle_at cfg st c store i hlen hi
  rw [ha] at hat
  rw [stepOut_armed_no_email cfg c.value (c.ts.getD c.now) (c.sendOk i) i
      (st.thresholds_cm.get ⟨i, hi⟩) (some a0) (db_get_state store (belowKey st i))
      hv harm (by simp) hemail] at hat
  exact hat

/-- With incomplete e-mail configuration, an armed stored flag and an
untruthy `below_since`, any run of qualifying cycles leaves both keys
untouched and warns on every cycle. -/
theorem run_cycles_no_email (cfg : EngineCfg) (st : Station) (i : Nat) (a0 : DBVal)
    (hlen : st.thresholds_cm.length ≤ 4) (hi : i < st.thresholds_cm.length)
    (harm : armedOf (some a0) = true)
    (hemail : email_config_ok cfg = false) :
    ∀ (inputs : List CycleIn) (store : StateStore),
      db_get_state store (armedKey st i) = some a0 →
      belowTruthy (db_get_state store (belowKey st i)) = false →
      (∀ c ∈ inputs, st.thresholds_cm.get ⟨i, hi⟩ ≤ c.value) →
      db_get_state (run_cycles cfg st inputs store).1 (armedKey st i) = some a0
      ∧ db_get_state (run_cycles cfg st inputs store).1 (belowKey st i)
        = db_get_state store (belowKey st i)
      ∧ ∀ evs ∈ (run_cycles cfg st inputs store).2,
          evs.filter (evFor i) = [Event.warnedIncomplete i] := by
  intro inputs
  induction inputs with
  | nil => intro store h0 _ _; exact ⟨h0, rfl, by simp [run_cycles]⟩
  | cons c rest ih =>
    intro store h0 hbel hval
    have hcyc := cycle_armed_no_email cfg st c store i a0 hlen hi
      (hval c (by simp)) h0 harm hemail
    rw [hbel] at hcyc
    simp only [Bool.false_eq_true, if_false] at hcyc
    have hrec := ih (station_cycle cfg st c store).1 hcyc.1
      (by rw [hcyc.2.1]; exact hbel)
      (fun c2 hc2 => hval c2 (by simp [hc2]))
    rw [run_cycles_cons]
    refine ⟨hrec.1, by rw [hrec.2.1, hcyc.2.1], ?_⟩
    intro evs hevs
    rcases List.mem_cons.mp hevs with h | h
    · rw [h]; exact hcyc.2.2
    · exact hrec.2.2 evs h

/-- One threshold step turns an armed flag into a disarmed one only on a
successful send (a `sent` event) or through first-observation suppression
(no stored flag and `alert_on_start = false`). -/
theorem step_disarm_inversion (cfg : EngineCfg) (st : Station) (value dt : ℚ)
    (sOk : Bool) (i : Nat) (th : ℚ) (store : StateStore)
    (hbefore : armedOf (db_get_state store (armedKey st i)) = true)
    (hafter : armedOf (db_get_state (threshold_step cfg st value dt sOk i th store).1
        (armedKey st i)) = false) :
    Event.sent i ∈ (threshold_step cfg st value dt sOk i th store).2
    ∨ (db_get_state store (armedKey st i) = none ∧ cfg.alert_on_start = false) := by
  have hspec := step_spec cfg st value dt sOk i th store
  rw [hspec.1] at hafter
  rw [hspec.2.2]
  have h2 : ¬ armedOf (db_get_state store (armedKey st i)) = false := by simp [hbefore]
  by_cases h1 : value < th
  · exfalso
    cases hb : belowTimeOf (db_get_state store (belowKey st i)) with
    | none =>
      by_cases h4 : belowTruthy (db_get_state store (belowKey st i)) = true <;>
        simp [stepOut, h1, h2, hb, h4, hbefore] at hafter
    | some t0 =>
      by_cases h3 : cfg.rearm_below_hours * 3600 ≤ dt - t0 <;>
      by_cases h4 : belowTruthy (db_get_state store (belowKey st i)) = true <;>
        simp [stepOut, h1, h2, h3, h4, hb, hbefore] at hafter
  · by_cases h4 : db_get_state store (armedKey st i) = none ∧ cfg.alert_on_start = false
    · exact Or.inr h4
    · left
      by_cases h5 : email_config_ok cfg = true
      · cases hsk : sOk with
        | false =>
          exfalso
          by_cases h3 : belowTruthy (db_get_state store (belowKey st i)) = true <;>
            simp [stepOut, h1, h2, h3, h4, h5, hsk, hbefore] at hafter
        | true =>
          by_cases h3 : belowTruthy (db_get_state store (belowKey st i)) = true <;>
            simp [stepOut, h1, h2, h3, h4, h5, hsk]
      · exfalso
        by_cases h3 : belowTruthy (db_get_state store (belowKey st i)) = true <;>
          simp [stepOut, h1, h2, h3, h4, h5, hbefore] at hafter

/-- C10: for every run of cycles in which an armed, previously persisted
threshold is crossed but the e-mail configuration is incomplete or disabled,
no send is attempted: every qualifying cycle emits exactly the warning, the
armed flag keeps its persisted value, only `below_since` is cleared (once, if
it was set), and in general an armed threshold becomes disarmed only through
a successful send or first-observation suppression. -/
theorem claim_C10_incomplete_email_keeps_armed (cfg : EngineCfg) (st : Station)
    (i : Nat) (a0 : DBVal) (store0 : StateStore) (inputs : List CycleIn)
    (hlen : st.thresholds_cm.length ≤ 4) (hi : i < st.thresholds_cm.length)
    (hemail : email_config_ok cfg = false)
    (ha : db_get_state store0 (armedKey st i) = some a0)
    (harm : armedOf (some a0) = true)
    (hne : inputs ≠ [])
    (hval : ∀ c ∈ inputs, st.thresholds_cm.get ⟨i, hi⟩ ≤ c.value) :
    (∀ evs ∈ (run_cycles cfg st inputs store0).2,
        evs.filter (evFor i) = [Event.warnedIncomplete i])
    ∧ db_get_state (run_cycles cfg st inputs store0).1 (armedKey st i) = some a0
    ∧ db_get_state (run_cycles cfg st inputs store0).1 (belowKey st i)
      = (if belowTruthy (db_get_state store0 (belowKey st i)) then some (.s "")
         else db_get_state store0 (belowKey st i))
    ∧ (∀ (cfg2 : EngineCfg) (value dt : ℚ) (sOk : Bool) (th : ℚ) (store : StateStore),
        armedOf (db_get_state store (armedKey st i)) = true →
        armedOf (db_get_state (threshold_step cfg2 st value dt sOk i th store).1
          (armedKey st i)) = false →
        Event.sent i ∈ (threshold_step cfg2 st value dt sOk i th store).2
        ∨ (db_get_state store (armedKey st i) = none ∧ cfg2.alert_on_start = false)) := by
  rcases List.exists_cons_of_ne_nil hne with ⟨c0, rest, hsplit⟩
  subst hsplit
  have hc0 := cycle_armed_no_email cfg st c0 store0 i a0 hlen hi
    (hval c0 (by simp)) ha harm hemail
  have hbel1 : belowTruthy (db_get_state (station_cycle cfg st c0 store0).1
      (belowKey st i)) = false := by
    rw [hc0.2.1]
    by_cases hb0 : belowTruthy (db_get_state store0 (belowKey st i)) = true
    · rw [if_pos hb0]; decide
    · rw [if_neg hb0]; simpa using hb0
  have hrest := run_cycles_no_email cfg st i a0 hlen hi harm hemail rest
    (station_cycle cfg st c0 store0).1 hc0.1 hbel1
    (fun c hc => hval c (by simp [hc]))
  refine ⟨?_, ?_, ?_, ?_⟩
  · intro evs hevs
    rw [run_cycles_cons] at hevs
    rcases List.mem_cons.mp hevs with h | h
    · rw [h]; exact hc0.2.2
    · exact hrest.2.2 evs h
  · rw [run_cycles_cons]; exact hrest.1
  · rw [run_cycles_cons]
    rw [hrest.2.1, hc0.2.1]
  · intro cfg2 value dt sOk th store hb hafter
    exact step_disarm_inversion cfg2 st value dt sOk i th store hb hafter

/-- Closed instance of C10: `stW` with threshold 0 armed, e-mail disabled,
two qualifying cycles. -/
theorem claim_C10_witness :
    (email_config_ok cfgWoff = false
      ∧ db_get_state storeW1 (armedKey stW 0) = some (.s "1"))
    ∧ (∀ evs ∈ (run_cycles cfgWoff stW [cycHigh, cycHigh] storeW1).2,
        evs.filter (evFor 0) = [Event.warnedIncomplete 0])
    ∧ db_get_state (run_cycles cfgWoff stW [cycHigh, cycHigh] storeW1).1 (armedKey stW 0)
        = some (.s "1") :=
  ⟨⟨by decide, by decide⟩,
    (claim_C10_incomplete_email_keeps_armed cfgWoff stW 0 (.s "1") storeW1
      [cycHigh, cycHigh] (by decide) (by decide) (by decide) (by decide) (by decide)
      (by simp) (by intro c hc; fin_cases hc <;> decide)).1,
    (claim_C10_incomplete_email_keeps_armed cfgWoff stW 0 (.s "1") storeW1
      [cycHigh, cycHigh] (by decide) (by decide) (by decide) (by decide) (by decide)
      (by simp) (by intro c hc; fin_cases hc <;> decide)).2.1⟩

/-! ## C3: severity level computation -/

theorem compute_level_le (value : ℚ) : ∀ ts : List ℚ, compute_level value ts ≤ ts.length := by
  intro ts
  induction ts with
  | nil => simp [compute_level]
  | cons t rest ih =>
    by_cases h : t ≤ value <;> simp [compute_level, h]
    omega

theorem compute_level_zero_iff (value : ℚ) (t : ℚ) (rest : List ℚ) :
    compute_level value (t :: rest) = 0 ↔ value < t := by
  by_cases h : t ≤ value
  · simp [compute_level, h, not_lt.mpr h]
  · simp [compute_level, h, not_le.mp h]

theorem compute_level_upto (value : ℚ) :
    ∀ (ts : List ℚ) (i : Nat), i < compute_level value ts → ts.getD i 0 ≤ value := by
  intro ts
  induction ts with
  | nil => intro i hi; simp [compute_level] at hi
  | cons t rest ih =>
    intro i hi
    by_cases h : t ≤ value
    · simp only [compute_level, if_pos h] at hi
      cases i with
      | zero => simpa using h
      | succ j =>
        rw [List.getD_cons_succ]
        exact ih j (by omega)
    · simp [compute_level, h] at hi

theorem compute_level_stop (value : ℚ) :
    ∀ ts : List ℚ, compute_level value ts < ts.length →
      value < ts.getD (compute_level value ts) 0 := by
  intro ts
  induction ts with
  | nil => intro h; simp [compute_level] at h
  | cons t rest ih =>
    intro hlt
    by_cases h : t ≤ value
    · simp only [compute_level, if_pos h] at hlt ⊢
      rw [List.getD_cons_succ]
      exact ih (by simpa using hlt)
    · simp [compute_level, h, not_le.mp h]

theorem chain_lt_getD_mono (ts : List ℚ) (hs : List.Chain' (· < ·) ts)
    (i j : Nat) (hij : i < j) (hj : j < ts.length) : ts.getD i 0 < ts.getD j 0 := by
  have hp : List.Pairwise (· < ·) ts := List.chain'_iff_pairwise.mp hs
  have hi : i < ts.length := lt_trans hij hj
  rw [List.getD_eq_getElem _ _ hi, List.getD_eq_getElem _ _ hj]
  exact List.pairwise_iff_get.mp hp ⟨i, hi⟩ ⟨j, hj⟩ hij

theorem compute_level_unique (value : ℚ) (ts : List ℚ) (hs : List.Chain' (· < ·) ts)
    (m : Nat) (hm : m ≤ ts.length)
    (h1 : 1 ≤ m → ts.getD (m - 1) 0 ≤ value)
    (h2 : m < ts.length → value < ts.getD m 0) : m = compute_level value ts := by
  rcases lt_trichotomy m (compute_level value ts) with h | h | h
  · exfalso
    have hmlen : m < ts.length := lt_of_lt_of_le h (compute_level_le value ts)
    exact absurd (compute_level_upto value ts m h) (not_le.mpr (h2 hmlen))
  · exact h
  · exfalso
    have hm1 : 1 ≤ m := by omega
    have hmlen : m - 1 < ts.length := by omega
    have hklen : compute_level value ts < ts.length := by omega
    have hle : ts.getD (compute_level value ts) 0 ≤ ts.getD (m - 1) 0 := by
      rcases Nat.lt_or_ge (compute_level value ts) (m - 1) with hlt | hge
      · exact le_of_lt (chain_lt_getD_mono ts hs _ _ hlt hmlen)
      · have : compute_level value ts = m - 1 := by omega
        rw [this]
    have := lt_of_lt_of_le (compute_level_stop value ts hklen) (le_trans hle (h1 hm1))
    exact lt_irrefl value this

theorem chainW : List.Chain' (· < ·) ([150, 180, 200, 220] : List ℚ) := by
  simp only [List.chain'_cons, List.chain'_singleton, and_true]
  exact ⟨by decide, by decide, by decide⟩

/-- C3: with a strictly ascending threshold list, the computed severity level
is the unique integer `k` in `[0, N]` with `value < thresholds[0]` iff
`k = 0`, `thresholds[k-1] ≤ value` when `k ≥ 1`, and `value < thresholds[k]`
when `k < N`; in particular, for thresholds `[150, 180, 200, 220]` the values
`179.9`, `180.0`, `219.9` and `300` give levels 1, 2, 3 and 4. -/
theorem claim_C3_level_computation :
    (∀ (value : ℚ) (ts : List ℚ), List.Chain' (· < ·) ts → ts ≠ [] →
      compute_level value ts ≤ ts.length
      ∧ (compute_level value ts = 0 ↔ value < ts.getD 0 0)
      ∧ (1 ≤ compute_level value ts →
          ts.getD (compute_level value ts - 1) 0 ≤ value)
      ∧ (∀ m, m ≤ ts.length → (1 ≤ m → ts.getD (m - 1) 0 ≤ value) →
          (m < ts.length → value < ts.getD m 0) → m = compute_level value ts))
    ∧ compute_level (1799 / 10) [150, 180, 200, 220] = 1
    ∧ compute_level 180 [150, 180, 200, 220] = 2
    ∧ compute_level (2199 / 10) [150, 180, 200, 220] = 3
    ∧ compute_level 300 [150, 180, 200, 220] = 4 := by
  refine ⟨?_, ?_, ?_, ?_, ?_⟩
  · intro value ts hs hne
    refine ⟨compute_level_le value ts, ?_, ?_, ?_⟩
    · match ts, hne with
      | t :: rest, _ => simpa using compute_level_zero_iff value t rest
    · intro h1
      exact compute_level_upto value ts _ (by omega)
    · intro m hm h1 h2
      exact compute_level_unique value ts hs m hm h1 h2
  · with_unfolding_all decide
  · with_unfolding_all decide
  · with_unfolding_all decide
  · with_unfolding_all decide

/-- Closed instance of C3 at value 180 on the thresholds
`[150, 180, 200, 220]`. -/
theorem claim_C3_witness :
    (List.Chain' (· < ·) ([150, 180, 200, 220] : List ℚ)
      ∧ ([150, 180, 200, 220] : List ℚ) ≠ [])
    ∧ compute_level 180 [150, 180, 200, 220] ≤ ([150, 180, 200, 220] : List ℚ).length
    ∧ (compute_level 180 [150, 180, 200, 220] = 0
        ↔ (180 : ℚ) < ([150, 180, 200, 220] : List ℚ).getD 0 0) :=
  ⟨⟨chainW, by decide⟩,
    (claim_C3_level_computation.1 180 [150, 180, 200, 220] chainW (by decide)).1,
    (claim_C3_level_computation.1 180 [150, 180, 200, 220] chainW (by decide)).2.1⟩

/-! ## C7: idempotent measurement ingestion -/

/-- C7: `INSERT OR IGNORE` ingestion is idempotent: an insert whose
`(station_no, parameter, ts)` key already exists leaves the table unchanged,
so inserting two rows with the same key into a table without that key leaves
exactly one row for the key, the one from the first insert. -/
theorem claim_C7_idempotent_ingestion (tbl : List MeasRow) (r1 r2 : MeasRow)
    (hkey : r2.key = r1.key)
    (hnew : tbl.filter (fun r => r.key == r1.key) = []) :
    (∀ (t : List MeasRow) (r : MeasRow), t.any (fun q => q.key == r.key) = true →
        insert_or_ignore t r = t)
    ∧ insert_or_ignore (insert_or_ignore tbl r1) r2 = insert_or_ignore tbl r1
    ∧ (insert_or_ignore tbl r1).filter (fun r => r.key == r1.key) = [r1] := by
  have hnone : ∀ r ∈ tbl, ¬ (r.key == r1.key) = true :=
    List.filter_eq_nil_iff.mp hnew
  have hanyf : tbl.any (fun q => q.key == r1.key) = false := by
    rw [Bool.eq_false_iff]
    intro hc
    rcases List.any_eq_true.mp hc with ⟨r, hr, hrk⟩
    exact hnone r hr hrk
  have hins : insert_or_ignore tbl r1 = tbl ++ [r1] := by
    simp [insert_or_ignore, hanyf]
  refine ⟨?_, ?_, ?_⟩
  · intro t r h
    simp [insert_or_ignore, h]
  · have hany2 : (insert_or_ignore tbl r1).any (fun q => q.key == r2.key) = true := by
      rw [hins, hkey]
      simp
  -- the just-inserted row matches the key
    rw [insert_or_ignore, if_pos hany2]
  · rw [hins, List.filter_append]
    simp [hnew]

/-- Closed instance of C7: inserting two rows with the key of `rowW` into the
empty table keeps exactly the first row. -/
theorem claim_C7_witness :
    (rowW2.key = rowW.key
      ∧ ([] : List MeasRow).filter (fun r => r.key == rowW.key) = [])
    ∧ insert_or_ignore (insert_or_ignore [] rowW) rowW2 = insert_or_ignore [] rowW
    ∧ (insert_or_ignore [] rowW).filter (fun r => r.key == rowW.key) = [rowW] :=
  ⟨⟨by decide, by decide⟩,
    (claim_C7_idempotent_ingestion [] rowW rowW2 (by decide) (by decide)).2.1,
    (claim_C7_idempotent_ingestion [] rowW rowW2 (by decide) (by decide)).2.2⟩

/-! ## C9: timestamp parsing -/

/-- C9: `_to_dt` disambiguates numeric epoch stamps by magnitude — values
above `1e12` are milliseconds (divided by 1000), values above `1e9` (and at
most `1e12`) are seconds, all other numbers are invalid — and hands strings
(stripped, rejected when empty) to ISO-8601 parsing after replacing `"Z"`
with the UTC offset `"+00:00"`.  The ISO-8601 grammar itself is the standard
library's `datetime.fromisoformat`, abstracted as `isoParse`. -/
theorem claim_C9_to_dt_magnitude :
    (∀ (isoParse : String → Option ℚ) (v : ℚ),
      ((1000000000000 : ℚ) < v → to_dt isoParse (.vnum v) = some (v / 1000))
      ∧ ((1000000000 : ℚ) < v → v ≤ 1000000000000 → to_dt isoParse (.vnum v) = some v)
      ∧ (v ≤ 1000000000 → to_dt isoParse (.vnum v) = none))
    ∧ (∀ isoParse : String → Option ℚ, to_dt isoParse .vnull = none)
    ∧ (∀ (isoParse : String → Option ℚ) (s : String),
        to_dt isoParse (.vstr s) =
          if pyStrip s = "" then none
          else isoParse ((pyStrip s).replace "Z" "+00:00")) := by
  refine ⟨?_, fun _ => rfl, fun _ _ => rfl⟩
  intro isoParse v
  refine ⟨?_, ?_, ?_⟩
  · intro h
    simp [to_dt, h]
  · intro h1 h2
    rw [to_dt, if_neg (not_lt.mpr h2), if_pos h1]
  · intro h
    have hlt : ¬ (1000000000000 : ℚ) < v :=
      not_lt.mpr (le_trans h (by decide))
    have hlt2 : ¬ (1000000000 : ℚ) < v := not_lt.mpr h
    rw [to_dt, if_neg hlt, if_neg hlt2]

/-- Closed instance of C9: `2e9` is in the seconds range and parses to the
instant `2e9`. -/
theorem claim_C9_witness :
    ((1000000000 : ℚ) < 2000000000 ∧ (2000000000 : ℚ) ≤ 1000000000000)
    ∧ to_dt (fun _ => none) (.vnum 2000000000) = some 2000000000 :=
  ⟨⟨by decide, by decide⟩,
    (claim_C9_to_dt_magnitude.1 (fun _ => none) 2000000000).2.1
      (by decide) (by decide)⟩

/-! ## C8: configuration validation -/

theorem insertAsc_perm (a : ℚ) : ∀ l : List ℚ, List.Perm (insertAsc a l) (a :: l) := by
  intro l
  induction l with
  | nil => rfl
  | cons b t ih =>
    by_cases h : a ≤ b
    · simp [insertAsc, h]
    · rw [insertAsc, if_neg h]
      exact (ih.cons b).trans (List.Perm.swap a b t)

theorem pySorted_perm : ∀ l : List ℚ, List.Perm (pySorted l) l := by
  intro l
  induction l with
  | nil => rfl
  | cons a t ih =>
    exact (insertAsc_perm a (pySorted t)).trans (ih.cons a)

theorem strictlyAsc_iff : ∀ l : List ℚ, strictlyAsc l = true ↔ List.Chain' (· < ·) l := by
  intro l
  match l with
  | [] => simp [strictlyAsc]
  | [a] => simp [strictlyAsc]
  | a :: b :: t =>
    rw [strictlyAsc, List.chain'_cons, Bool.and_eq_true, decide_eq_true_iff,
      strictlyAsc_iff (b :: t)]

theorem chain_lt_nodup (l : List ℚ) (h : List.Chain' (· < ·) l) : l.Nodup := by
  have hp : List.Pairwise (· < ·) l := List.chain'_iff_pairwise.mp h
  exact hp.imp (fun hab => ne_of_lt hab)

theorem filterMap_id_map_some (l : List ℚ) : (l.map some).filterMap id = l := by
  induction l with
  | nil => rfl
  | cons a t ih => simp [ih]

/-- C8 counterexample: the claim says loading fails for every configuration
whose threshold list is not strictly ascending, but
`_parse_thresholds_for_section` sorts the list (`vals = sorted(vals)`) before
the strictness check: the unsorted list `[200, 150, 180]` is accepted and
loaded as `[150, 180, 200]`. -/
theorem claim_C8_counterexample :
    strictlyAsc [200, 150, 180] = false
    ∧ parse_thresholds (secList [200, 150, 180]) [100] = .ok [150, 180, 200] := by
  constructor
  · decide
  · rfl

/-- C8 (amended): configuration loading fails when the `thresholds_cm` list
does not have 3 or 4 entries (in particular when it is empty), contains a
value that is not positive, or contains duplicate values; a non-ascending
list of distinct admissible values, however, is sorted and accepted.  A
present `level_names` list whose (stripped, nonempty) entry count differs
from the threshold count fails.  Every successfully parsed station satisfies:
thresholds strictly increasing and all positive (given a valid fallback), and
`len(level_names) = len(thresholds)`. -/
theorem claim_C8_validation (sec : SectionData) (fallback vals : List ℚ)
    (hfb1 : List.Chain' (· < ·) fallback) (hfb2 : ∀ v ∈ fallback, 0 < v)
    (hok : parse_thresholds sec fallback = .ok vals) :
    (List.Chain' (· < ·) vals ∧ ∀ v ∈ vals, 0 < v)
    ∧ (∀ (fb2 : List String) (n : Nat) (names : List String) (sec2 : SectionData),
        parse_level_names sec2 fb2 n = .ok names → names.length = n)
    ∧ (∀ (fb3 l : List ℚ),
        (¬ (l.length = 3 ∨ l.length = 4) ∨ (∃ x ∈ l, x ≤ 0) ∨ ¬ l.Nodup) →
        ∀ vals2, parse_thresholds (secList l) fb3 ≠ .ok vals2)
    ∧ (∀ (fb4 : List String) (n : Nat) (parts : List String),
        ((parts.map pyStrip).filter (fun p => !(p == ""))).length ≠ n →
        ∀ names2, parse_level_names (secNames parts) fb4 n ≠ .ok names2) := by
  refine ⟨?_, ?_, ?_, ?_⟩
  · -- postcondition of a successful threshold parse
    match hsec : sec.thresholds_cm with
    | some tv =>
      match htv : thresholds_from_any tv with
      | none => simp [parse_thresholds, hsec, htv] at hok
      | some vals0 =>
        simp only [parse_thresholds, hsec, htv] at hok
        by_cases hlen : vals0.length = 3 ∨ vals0.length = 4
        · rw [if_pos hlen] at hok
          by_cases hpos : ((pySorted vals0).any (fun v => decide (v ≤ 0))) = true
          · rw [if_pos hpos] at hok; exact absurd hok (by simp)
          · rw [if_neg hpos] at hok
            by_cases hasc : strictlyAsc (pySorted vals0) = true
            · rw [if_pos hasc] at hok
              have hv : vals = pySorted vals0 := by
                have h2 := hok; simp at h2; exact h2.symm
              subst hv
              refine ⟨(strictlyAsc_iff _).mp hasc, ?_⟩
              intro v hv
              by_contra hc
              exact hpos (List.any_eq_true.mpr ⟨v, hv, by simpa using not_lt.mp hc⟩)
            · rw [if_neg hasc] at hok; exact absurd hok (by simp)
        · rw [if_neg hlen] at hok; exact absurd hok (by simp)
    | none =>
      simp only [parse_thresholds, hsec] at hok
      by_cases hsing : (sec.threshold1_cm.isSome || sec.threshold2_cm.isSome
          || sec.threshold3_cm.isSome || sec.threshold4_cm.isSome) = true
      · rw [if_pos hsing] at hok
        by_cases hlen : ([pyOr0 sec.threshold1_cm, pyOr0 sec.threshold2_cm,
            pyOr0 sec.threshold3_cm, pyOr0 sec.threshold4_cm].filter
              (fun t => decide (0 < t))).length = 3
            ∨ ([pyOr0 sec.threshold1_cm, pyOr0 sec.threshold2_cm,
            pyOr0 sec.threshold3_cm, pyOr0 sec.threshold4_cm].filter
              (fun t => decide (0 < t))).length = 4
        · rw [if_pos hlen] at hok
          by_cases hasc : strictlyAsc (pySorted
              ([pyOr0 sec.threshold1_cm, pyOr0 sec.threshold2_cm,
                pyOr0 sec.threshold3_cm, pyOr0 sec.threshold4_cm].filter
                  (fun t => decide (0 < t)))) = true
          · rw [if_pos hasc] at hok
            have hv : vals = pySorted
                ([pyOr0 sec.threshold1_cm, pyOr0 sec.threshold2_cm,
                  pyOr0 sec.threshold3_cm, pyOr0 sec.threshold4_cm].filter
                    (fun t => decide (0 < t))) := by
              have h2 := hok; simp at h2; exact h2.symm
            subst hv
            refine ⟨(strictlyAsc_iff _).mp hasc, ?_⟩
            intro v hv
            have hv2 := (pySorted_perm _).mem_iff.mp hv
            have hv3 := List.mem_filter.mp hv2
            simpa using hv3.2
          · rw [if_neg hasc] at hok; exact absurd hok (by simp)
        · rw [if_neg hlen] at hok; exact absurd hok (by simp)
      · rw [if_neg hsing] at hok
        match hone : sec.threshold_cm with
        | some tv2 =>
          simp only [hone] at hok
          by_cases hx : tv2.getD 0 ≤ 0
          · rw [if_pos hx] at hok; exact absurd hok (by simp)
          · rw [if_neg hx] at hok
            have hv : vals = [tv2.getD 0] := by
              have h2 := hok; simp at h2; exact h2.symm
            subst hv
            exact ⟨by simp, by simpa using not_le.mp hx⟩
        | none =>
          simp only [hone] at hok
          have hv : vals = fallback := by
            have h2 := hok; simp at h2; exact h2.symm
          subst hv
          exact ⟨hfb1, hfb2⟩
  · -- a successful level-name parse always matches the threshold count
    intro fb2 n names sec2 hnames
    match hln : sec2.level_names with
    | some v =>
      simp only [parse_level_names, hln] at hnames
      by_cases hl : (((v.getD []).map pyStrip).filter (fun p => !(p == ""))).length = n
      · rw [if_pos hl] at hnames
        have hv : names = ((v.getD []).map pyStrip).filter (fun p => !(p == "")) := by
          have h2 := hnames; simp at h2; exact h2.symm
        rw [hv]; exact hl
      · rw [if_neg hl] at hnames; exact absurd hnames (by simp)
    | none =>
      simp only [parse_level_names, hln] at hnames
      by_cases hl : fb2.length = n
      · rw [if_pos hl] at hnames
        have hv : names = fb2 := by
          have h2 := hnames; simp at h2; exact h2.symm
        rw [hv]; exact hl
      · rw [if_neg hl] at hnames
        have hv : names = (List.range n).map (fun i => "Warnstufe " ++ toString (i + 1)) := by
          have h2 := hnames; simp at h2; exact h2.symm
        rw [hv]; simp
  · -- rejection of bad threshold lists
    intro fb3 l hbad vals2 hok2
    simp only [parse_thresholds, secList, thresholds_from_any,
      filterMap_id_map_some] at hok2
    rcases hbad with hcount | ⟨x, hx, hx0⟩ | hdup
    · rw [if_neg hcount] at hok2; exact absurd hok2 (by simp)
    · by_cases hcount : l.length = 3 ∨ l.length = 4
      · rw [if_pos hcount] at hok2
        have hany : ((pySorted l).any (fun v => decide (v ≤ 0))) = true :=
          List.any_eq_true.mpr ⟨x, (pySorted_perm l).mem_iff.mpr hx, by simpa using hx0⟩
        rw [if_pos hany] at hok2
        exact absurd hok2 (by simp)
      · rw [if_neg hcount] at hok2; exact absurd hok2 (by simp)
    · by_cases hcount : l.length = 3 ∨ l.length = 4
      · rw [if_pos hcount] at hok2
        by_cases hpos : ((pySorted l).any (fun v => decide (v ≤ 0))) = true
        · rw [if_pos hpos] at hok2; exact absurd hok2 (by simp)
        · rw [if_neg hpos] at hok2
          have hasc : ¬ strictlyAsc (pySorted l) = true := by
            intro hasc
            exact hdup ((pySorted_perm l).nodup_iff.mp
              (chain_lt_nodup _ ((strictlyAsc_iff _).mp hasc)))
          rw [if_neg hasc] at hok2
          exact absurd hok2 (by simp)
      · rw [if_neg hcount] at hok2; exact absurd hok2 (by simp)
  · -- rejection of mismatched level-name lists
    intro fb4 n parts hmis names2 hok2
    simp only [parse_level_names, secNames] at hok2
    rw [if_neg (by simpa using hmis)] at hok2
    exact absurd hok2 (by simp)

/-- Closed instance of the amended C8 on the sorted-and-accepted list. -/
theorem claim_C8_witness :
    (List.Chain' (· < ·) ([100] : List ℚ) ∧ (∀ v ∈ ([100] : List ℚ), 0 < v)
      ∧ parse_thresholds (secList [200, 150, 180]) [100] = .ok [150, 180, 200])
    ∧ (List.Chain' (· < ·) ([150, 180, 200] : List ℚ)
        ∧ ∀ v ∈ ([150, 180, 200] : List ℚ), 0 < v) :=
  ⟨⟨by simp, by decide, by rfl⟩,
    (claim_C8_validation (secList [200, 150, 180]) [100] [150, 180, 200]
      (by simp) (by decide) (by rfl)).1⟩

/-! ## C5: notification send failure -/

/-- In a cycle at or above threshold `i` whose stored flag decodes to armed,
with complete e-mail configuration and a failing send, the flag is unchanged
and exactly the failure event for `i` is emitted. -/
theorem cycle_armed_send_fail (cfg : EngineCfg) (st : Station) (c : CycleIn)
    (store : StateStore) (i : Nat) (a0 : DBVal)
    (hlen : st.thresholds_cm.length ≤ 4) (hi : i < st.thresholds_cm.length)
    (hv : st.thresholds_cm.get ⟨i, hi⟩ ≤ c.value)
    (ha : db_get_state store (armedKey st i) = some a0)
    (harm : armedOf (some a0) = true)
    (hemail : email_config_ok cfg = true)
    (hsend : c.sendOk i = false) :
    db_get_state (station_cycle cfg st c store).1 (armedKey st i) = some a0
    ∧ (station_cycle cfg st c store).2.filter (evFor i) = [Event.sendFailed i] := by
  have hat := station_cycle_at cfg st c store i hlen hi
  rw [ha, hsend] at hat
  rw [stepOut_armed_send_fail cfg c.value (c.ts.getD c.now) i
      (st.thresholds_cm.get ⟨i, hi⟩) (some a0) (db_get_state store (belowKey st i))
      hv harm (by simp) hemail] at hat
  exact ⟨hat.1, hat.2.2⟩

/-- After `INSERT OR IGNORE` of a row, some row with that key is in the
table. -/
theorem insert_or_ignore_key_mem (tbl : List MeasRow) (row : MeasRow) :
    ∃ r ∈ insert_or_ignore tbl row, r.key = row.key := by
  by_cases h : tbl.any (fun q => q.key == row.key) = true
  · rcases List.any_eq_true.mp h with ⟨q, hq, hqk⟩
    exact ⟨q, by rw [insert_or_ignore, if_pos h]; exact hq, by simpa using hqk⟩
  · refine ⟨row, ?_, rfl⟩
    rw [insert_or_ignore, if_neg h]
    simp

/-- C5: when an armed threshold crossing's notification send fails, the armed
flag keeps its persisted value (so the crossing is retried next cycle), the
already-performed measurement insert stands, the failure is reported, the
station is not marked failed, and every other armed threshold of the station
is still evaluated and can notify. -/
theorem claim_C5_send_failure_keeps_armed (cfg : EngineCfg)
    (isoP floatP : String → Option ℚ) (imap : IndexMap) (now : ℚ)
    (sendOk : Nat → Bool) (st : Station) (db : DB)
    (i : Nat) (a0 : DBVal) (f : Fetched)
    (hlen : st.thresholds_cm.length ≤ 4) (hi : i < st.thresholds_cm.length)
    (hfetch : latest_for_station isoP floatP imap st = .ok f)
    (hv : st.thresholds_cm.get ⟨i, hi⟩ ≤ f.value)
    (ha : db_get_state db.state (armedKey st i) = some a0)
    (harm : armedOf (some a0) = true)
    (hemail : email_config_ok cfg = true)
    (hsend : sendOk i = false) :
    db_get_state (check_station cfg isoP floatP imap now sendOk st db).1.state
        (armedKey st i) = some a0
    ∧ (∃ row ∈ (check_station cfg isoP floatP imap now sendOk st db).1.meas,
        row.key = ⟨st.station_no, st.parameter, f.dt⟩)
    ∧ (check_station cfg isoP floatP imap now sendOk st db).2.2.filter (evFor i)
        = [Event.sendFailed i]
    ∧ (check_station cfg isoP floatP imap now sendOk st db).2.1 = false
    ∧ (∀ j (hj : j < st.thresholds_cm.length) (b0 : DBVal), j ≠ i →
        st.thresholds_cm.get ⟨j, hj⟩ ≤ f.value →
        db_get_state db.state (armedKey st j) = some b0 →
        armedOf (some b0) = true → sendOk j = true →
        (check_station cfg isoP floatP imap now sendOk st db).2.2.filter (evFor j)
          = [Event.sent j]) := by
  have hcs : check_station cfg isoP floatP imap now sendOk st db =
      (⟨insert_or_ignore db.meas
          ⟨⟨st.station_no, st.parameter, f.dt⟩, st.station_id_public, st.name,
            f.value, compute_level f.value st.thresholds_cm, f.source, f.unit⟩,
        (station_cycle cfg st ⟨f.value, some f.dt, now, sendOk⟩ db.state).1⟩,
        false,
        (station_cycle cfg st ⟨f.value, some f.dt, now, sendOk⟩ db.state).2) := by
    simp [check_station, hfetch]
  rw [hcs]
  refine ⟨?_, ?_, ?_, rfl, ?_⟩
  · exact (cycle_armed_send_fail cfg st ⟨f.value, some f.dt, now, sendOk⟩ db.state i a0
      hlen hi hv ha harm hemail hsend).1
  · exact insert_or_ignore_key_mem db.meas _
  · exact (cycle_armed_send_fail cfg st ⟨f.value, some f.dt, now, sendOk⟩ db.state i a0
      hlen hi hv ha harm hemail hsend).2
  · intro j hj b0 hji hvj hb hbarm hsj
    exact (cycle_armed_send_ok cfg st ⟨f.value, some f.dt, now, sendOk⟩ db.state j b0
      hlen hj hvj hb hbarm hemail hsj).2

/-- Closed instance of C5: `stW` with thresholds 0 and 1 armed (threshold 0
via `storeW1`, threshold 1 by default on an absent key — here we use the
persisted flag of threshold 0 and a failing send for it), fetched from
`imapW`, send failing for threshold 0 only. -/
theorem claim_C5_witness :
    (latest_for_station (fun _ => none) (fun _ => none) imapW stW
        = .ok ⟨1600000000, 230, "layers:10:index", "cm"⟩
      ∧ sendFail0 0 = false ∧ email_config_ok cfgW = true)
    ∧ db_get_state
        (check_station cfgW (fun _ => none) (fun _ => none) imapW 0 sendFail0 stW dbW).1.state
        (armedKey stW 0) = some (.s "1")
    ∧ (check_station cfgW (fun _ => none) (fun _ => none) imapW 0 sendFail0 stW dbW).2.2.filter
        (evFor 0) = [Event.sendFailed 0]
    ∧ (check_station cfgW (fun _ => none) (fun _ => none) imapW 0 sendFail0 stW dbW).2.1
        = false :=
  ⟨⟨by rfl, by decide, by decide⟩,
    (claim_C5_send_failure_keeps_armed cfgW (fun _ => none) (fun _ => none) imapW 0
      sendFail0 stW dbW 0 (.s "1") ⟨1600000000, 230, "layers:10:index", "cm"⟩
      (by decide) (by decide) (by rfl) (by decide) (by decide) (by decide)
      (by decide) (by decide)).1,
    (claim_C5_send_failure_keeps_armed cfgW (fun _ => none) (fun _ => none) imapW 0
      sendFail0 stW dbW 0 (.s "1") ⟨1600000000, 230, "layers:10:index", "cm"⟩
      (by decide) (by decide) (by rfl) (by decide) (by decide) (by decide)
      (by decide) (by decide)).2.2.1,
    (claim_C5_send_failure_keeps_armed cfgW (fun _ => none) (fun _ => none) imapW 0
      sendFail0 stW dbW 0 (.s "1") ⟨1600000000, 230, "layers:10:index", "cm"⟩
      (by decide) (by decide) (by rfl) (by decide) (by decide) (by decide)
      (by decide) (by decide)).2.2.2.1⟩

/-! ## C6: per-station failure isolation -/

theorem run_stations_cons (cfg : EngineCfg) (isoP floatP : String → Option ℚ)
    (imap : IndexMap) (now : ℚ) (sendOk : Station → Nat → Bool)
    (st : Station) (rest : List Station) (db : DB) :
    run_stations cfg isoP floatP imap now sendOk (st :: rest) db =
      ((run_stations cfg isoP floatP imap now sendOk rest
          (check_station cfg isoP floatP imap now (sendOk st) st db).1).1,
        (check_station cfg isoP floatP imap now (sendOk st) st db).2 ::
          (run_stations cfg isoP floatP imap now sendOk rest
            (check_station cfg isoP floatP imap now (sendOk st) st db).1).2) := rfl

theorem check_station_of_error (cfg : EngineCfg) (isoP floatP : String → Option ℚ)
    (imap : IndexMap) (now : ℚ) (sOk : Nat → Bool) (st : Station) (db : DB)
    (h : ∃ msg, latest_for_station isoP floatP imap st = .error msg) :
    check_station cfg isoP floatP imap now sOk st db = (db, true, []) := by
  rcases h with ⟨msg, hmsg⟩
  simp [check_station, hmsg]

theorem latest_error_iff (isoP floatP : String → Option ℚ) (imap : IndexMap)
    (st : Station) :
    (∃ msg, latest_for_station isoP floatP imap st = .error msg) ↔
      (item_lookup imap st = none
        ∨ ∃ it, item_lookup imap st = some it
            ∧ (to_dt isoP it.timestamp = none
              ∨ try_float floatP it.ts_value = none)) := by
  constructor
  · rintro ⟨msg, hmsg⟩
    match hit : item_lookup imap st with
    | none => exact Or.inl rfl
    | some it =>
      refine Or.inr ⟨it, rfl, ?_⟩
      by_contra hc
      push_neg at hc
      rcases Option.ne_none_iff_exists'.mp hc.1 with ⟨dt, hdt⟩
      rcases Option.ne_none_iff_exists'.mp hc.2 with ⟨fv, hfv⟩
      rw [latest_for_station, hit] at hmsg
      simp only [hdt, hfv] at hmsg
      exact absurd hmsg (by simp)
  · intro h
    rcases h with hnone | ⟨it, hit, hparse⟩
    · exact ⟨_, by rw [latest_for_station, hnone]⟩
    · rcases hparse with hdt | hfv
      · exact ⟨"timestamp/value nicht parsebar",
          by rw [latest_for_station, hit]; simp only [hdt]⟩
      · cases hdt2 : to_dt isoP it.timestamp with
        | none =>
          exact ⟨"timestamp/value nicht parsebar",
            by rw [latest_for_station, hit]; simp only [hdt2]⟩
        | some dt =>
          exact ⟨"timestamp/value nicht parsebar",
            by rw [latest_for_station, hit]; simp only [hdt2, hfv]⟩

/-- C6: a station that is absent from the feed index or has an unparsable
timestamp/value fails alone: nothing is persisted for it, every station
still gets a result, the cycle's exit status is 1 exactly when some station
failed (0 when none did), and removing a failing station from the
configuration changes neither the resulting database nor the other stations'
results.  (The station-list statements assume a nonempty configuration, which
configuration loading guarantees; on an empty list `check_once` would already
fail computing the display column width.) -/
theorem claim_C6_failure_isolation (cfg : EngineCfg)
    (isoP floatP : String → Option ℚ) (imap : IndexMap) (now : ℚ)
    (sendOk : Station → Nat → Bool) :
    (∀ (stations : List Station) (db : DB), stations ≠ [] →
      (run_stations cfg isoP floatP imap now sendOk stations db).2.length
        = stations.length)
    ∧ (∀ (st : Station) (db : DB),
        (item_lookup imap st = none
          ∨ ∃ it, item_lookup imap st = some it
              ∧ (to_dt isoP it.timestamp = none
                ∨ try_float floatP it.ts_value = none)) →
        check_station cfg isoP floatP imap now (sendOk st) st db = (db, true, []))
    ∧ (∀ (stations : List Station) (db : DB), stations ≠ [] →
        ((check_once cfg isoP floatP imap now sendOk stations db).2.1 = 1
          ↔ ∃ r ∈ (check_once cfg isoP floatP imap now sendOk stations db).2.2,
              r.1 = true)
        ∧ ((check_once cfg isoP floatP imap now sendOk stations db).2.1 = 0
          ↔ ∀ r ∈ (check_once cfg isoP floatP imap now sendOk stations db).2.2,
              r.1 = false))
    ∧ (∀ (pre : List Station) (bad : Station) (post : List Station) (db : DB),
        (∃ msg, latest_for_station isoP floatP imap bad = .error msg) →
        run_stations cfg isoP floatP imap now sendOk (pre ++ bad :: post) db
          = ((run_stations cfg isoP floatP imap now sendOk (pre ++ post) db).1,
            ((run_stations cfg isoP floatP imap now sendOk (pre ++ post) db).2.take
              pre.length)
              ++ (true, []) ::
                ((run_stations cfg isoP floatP imap now sendOk (pre ++ post) db).2.drop
                  pre.length))) := by
  have hlen : ∀ (stations : List Station) (db : DB),
      (run_stations cfg isoP floatP imap now sendOk stations db).2.length
        = stations.length := by
    intro stations
    induction stations with
    | nil => intro db; rfl
    | cons st rest ih =>
      intro db
      rw [run_stations_cons]
      simp [ih]
  refine ⟨fun stations db _ => hlen stations db, ?_, ?_, ?_⟩
  · intro st db h
    exact check_station_of_error cfg isoP floatP imap now (sendOk st) st db
      ((latest_error_iff isoP floatP imap st).mpr h)
  · intro stations db _
    have hco : (check_once cfg isoP floatP imap now sendOk stations db).2.1 =
        (if ((run_stations cfg isoP floatP imap now sendOk stations db).2.any
          (fun p => p.1)) = true then 1 else 0) := rfl
    have hres : (check_once cfg isoP floatP imap now sendOk stations db).2.2 =
        (run_stations cfg isoP floatP imap now sendOk stations db).2 := rfl
    rw [hco, hres]
    by_cases hany : ((run_stations cfg isoP floatP imap now sendOk stations db).2.any
        (fun p => p.1)) = true
    · rw [if_pos hany]
      constructor
      · constructor
        · intro _
          rcases List.any_eq_true.mp hany with ⟨r, hr, hr1⟩
          exact ⟨r, hr, hr1⟩
        · intro _; rfl
      · constructor
        · intro h; exact absurd h (by norm_num)
        · intro h
          rcases List.any_eq_true.mp hany with ⟨r, hr, hr1⟩
          exact absurd hr1 (by simp [h r hr])
    · rw [if_neg hany]
      constructor
      · constructor
        · intro h; exact absurd h (by norm_num)
        · rintro ⟨r, hr, hr1⟩
          exact absurd (List.any_eq_true.mpr ⟨r, hr, hr1⟩) hany
      · constructor
        · intro _
          intro r hr
          have h2 := List.any_eq_false.mp (Bool.eq_false_iff.mpr hany) r hr
          simpa using h2
        · intro _; rfl
  · intro pre bad post db hbad
    induction pre generalizing db with
    | nil =>
      simp only [List.nil_append, List.take_nil, List.length_nil, List.take_zero,
        List.drop_zero]
      rw [run_stations_cons,
        check_station_of_error cfg isoP floatP imap now (sendOk bad) bad db hbad]
    | cons p pre ih =>
      simp only [List.cons_append, List.length_cons]
      rw [run_stations_cons, run_stations_cons, ih]
      simp [List.take_succ_cons, List.drop_succ_cons]

/-- Closed instance of C6: the two-station configuration `[stW, stBad]`,
where `stBad` is absent from the index `imapW`. -/
theorem claim_C6_witness :
    (item_lookup imapW stBad = none)
    ∧ check_station cfgW (fun _ => none) (fun _ => none) imapW 0
        ((fun _ _ => true) stBad) stBad dbW = (dbW, true, [])
    ∧ (run_stations cfgW (fun _ => none) (fun _ => none) imapW 0 (fun _ _ => true)
        [stW, stBad] dbW).2.length = 2 :=
  ⟨by rfl,
    (claim_C6_failure_isolation cfgW (fun _ => none) (fun _ => none) imapW 0
      (fun _ _ => true)).2.1 stBad dbW (Or.inl (by rfl)),
    (claim_C6_failure_isolation cfgW (fun _ => none) (fun _ => none) imapW 0
      (fun _ _ => true)).1 [stW, stBad] dbW (by simp)⟩

end PegelAlarm
